import Mathlib

/- Verification of the ZTLNote storage/versioning engine: a shallow embedding of
   `src/note.rs`, `src/store.rs`, `src/error.rs` and `src/organization.rs`.
   The filesystem owned by `Store` is modelled as explicit finite maps from
   file names to file states; non-deterministic UUID minting is modelled by
   passing the freshly minted identifier as an explicit argument. -/

set_option maxRecDepth 4000

/-! ## Association-list finite maps (model of directories and of Rust `HashMap`) -/

/-- Lookup of the first binding of a key in an association list. -/
def alookup {κ α : Type _} [DecidableEq κ] (k : κ) : List (κ × α) → Option α
  | [] => none
  | (k', v) :: t => if k' = k then some v else alookup k t

/-- Create-or-overwrite semantics of `fs::write`: replace the first binding of
the key, or append a fresh binding when the key is absent. -/
def aupdate {κ α : Type _} [DecidableEq κ] (k : κ) (v : α) : List (κ × α) → List (κ × α)
  | [] => [(k, v)]
  | (k', v') :: t => if k' = k then (k, v) :: t else (k', v') :: aupdate k v t

theorem alookup_aupdate_self {κ α : Type _} [DecidableEq κ] (k : κ) (v : α)
    (l : List (κ × α)) : alookup k (aupdate k v l) = some v := by
  induction l with
  | nil => simp [alookup, aupdate]
  | cons h t ih =>
    by_cases hk : h.1 = k
    · simp [aupdate, hk, alookup]
    · simpa [aupdate, hk, alookup] using ih

theorem alookup_aupdate_ne {κ α : Type _} [DecidableEq κ] (k k' : κ) (v : α)
    (l : List (κ × α)) (h : k ≠ k') : alookup k' (aupdate k v l) = alookup k' l := by
  induction l with
  | nil => simp [alookup, aupdate, h]
  | cons hd t ih =>
    by_cases hk : hd.1 = k
    · subst hk
      simp [aupdate, alookup, h]
    · simp [aupdate, hk, alookup]
      by_cases hk' : hd.1 = k'
      · simp [hk']
      · simpa [hk'] using ih

theorem alookup_append {κ α : Type _} [DecidableEq κ] (k : κ) (l₁ l₂ : List (κ × α)) :
    alookup k (l₁ ++ l₂) =
      match alookup k l₁ with
      | some v => some v
      | none => alookup k l₂ := by
  induction l₁ with
  | nil => simp [alookup]
  | cons h t ih =>
    by_cases hk : h.1 = k
    · simp [alookup, hk]
    · simpa [alookup, hk] using ih

theorem mem_aupdate {κ α : Type _} [DecidableEq κ] (k : κ) (v : α) (l : List (κ × α)) :
    (k, v) ∈ aupdate k v l := by
  induction l with
  | nil => simp [aupdate]
  | cons h t ih =>
    by_cases hk : h.1 = k
    · simp [aupdate, hk]
    · simp [aupdate, hk]
      right
      exact ih

/-! ## Identifiers
UUID-v4 values and their canonical hyphenated textual form, modelled faithfully
to the external `uuid` crate as used by the repository: a 128-bit value whose
`to_string` is 32 lowercase hex digits grouped 8-4-4-4-12 with hyphens, and
whose `parse_str` accepts that hyphenated form back. -/

/-- A note identifier: 128-bit universally unique value. -/
abbrev Uuid := Fin (2 ^ 128)

/-- Encoding table of one hex nibble, lowercase as produced by the uuid crate. -/
def hexDigitChar : Nat → Char
  | 0 => '0' | 1 => '1' | 2 => '2' | 3 => '3' | 4 => '4'
  | 5 => '5' | 6 => '6' | 7 => '7' | 8 => '8' | 9 => '9'
  | 10 => 'a' | 11 => 'b' | 12 => 'c' | 13 => 'd' | 14 => 'e' | 15 => 'f'
  | _ => '0'

/-- Numeric value of one hex digit character (either case), if any; written
over code points (48-57 digits, 97-102 lowercase, 65-70 uppercase). -/
def hexVal (c : Char) : Option Nat :=
  let n := c.toNat
  if 48 ≤ n ∧ n ≤ 57 then some (n - 48)
  else if 97 ≤ n ∧ n ≤ 102 then some (n - 87)
  else if 65 ≤ n ∧ n ≤ 70 then some (n - 55)
  else none

/-- Fixed-width big-endian hex rendering of a natural number. -/
def toHexFixed : Nat → Nat → List Char
  | 0, _ => []
  | w + 1, n => toHexFixed w (n / 16) ++ [hexDigitChar (n % 16)]

/-- Big-endian hex decoding with an accumulator; `none` on a non-hex character. -/
def fromHexAcc (acc : Nat) : List Char → Option Nat
  | [] => some acc
  | c :: cs =>
    match hexVal c with
    | some d => fromHexAcc (acc * 16 + d) cs
    | none => none

theorem hexVal_hexDigitChar (d : Nat) (h : d < 16) :
    hexVal (hexDigitChar d) = some d := by
  interval_cases d <;> rfl

theorem toHexFixed_length (w : Nat) : ∀ n, (toHexFixed w n).length = w := by
  induction w with
  | zero => intro n; rfl
  | succ w ih => intro n; simp [toHexFixed, ih]

theorem toHexFixed_mem (w : Nat) :
    ∀ n c, c ∈ toHexFixed w n → ∃ d, d < 16 ∧ c = hexDigitChar d := by
  induction w with
  | zero => intro n c hc; simp [toHexFixed] at hc
  | succ w ih =>
    intro n c hc
    simp only [toHexFixed, List.mem_append, List.mem_singleton] at hc
    rcases hc with hc | hc
    · exact ih _ c hc
    · exact ⟨n % 16, Nat.mod_lt _ (by norm_num), hc⟩

theorem fromHexAcc_append (acc : Nat) (xs ys : List Char) :
    fromHexAcc acc (xs ++ ys) =
      match fromHexAcc acc xs with
      | some a => fromHexAcc a ys
      | none => none := by
  induction xs generalizing acc with
  | nil => simp [fromHexAcc]
  | cons c cs ih =>
    simp only [List.cons_append, fromHexAcc]
    cases hexVal c with
    | none => rfl
    | some d => exact ih _

theorem fromHexAcc_toHexFixed (w : Nat) :
    ∀ acc n, fromHexAcc acc (toHexFixed w n) = some (acc * 16 ^ w + n % 16 ^ w) := by
  induction w with
  | zero => intro acc n; simp [toHexFixed, fromHexAcc, Nat.mod_one]
  | succ w ih =>
    intro acc n
    rw [toHexFixed, fromHexAcc_append, ih]
    simp only [fromHexAcc, hexVal_hexDigitChar (n % 16) (Nat.mod_lt _ (by norm_num))]
    congr 1
    have h16 : (16 : Nat) ^ (w + 1) = 16 ^ w * 16 := by ring
    have hmod : n % 16 ^ (w + 1) = n % 16 + 16 * (n / 16 % 16 ^ w) := by
      rw [h16, mul_comm]
      exact Nat.mod_mul
    rw [hmod, h16]
    ring

/-! ## Splitting character lists (model of Rust `str::lines` and hyphen splitting) -/

/-- Split a character list at every occurrence of `sep` (separators discarded),
like Rust `str::split`. The result always has one more part than separators. -/
def splitChar (sep : Char) : List Char → List (List Char)
  | [] => [[]]
  | c :: cs =>
    if c = sep then [] :: splitChar sep cs
    else
      match splitChar sep cs with
      | [] => [[c]]
      | h :: t => (c :: h) :: t

theorem splitChar_ne_nil (sep : Char) (l : List Char) : splitChar sep l ≠ [] := by
  induction l with
  | nil => simp [splitChar]
  | cons c cs ih =>
    by_cases hc : c = sep
    · simp [splitChar, hc]
    · simp only [splitChar, hc, if_false]
      cases h : splitChar sep cs with
      | nil => simp
      | cons a t => simp

theorem splitChar_no_sep (sep : Char) (l : List Char) (h : sep ∉ l) :
    splitChar sep l = [l] := by
  induction l with
  | nil => rfl
  | cons c cs ih =>
    have hc : c ≠ sep := fun e => h (e ▸ List.mem_cons_self c cs)
    have hcs : sep ∉ cs := fun e => h (List.mem_cons_of_mem _ e)
    simp [splitChar, hc, ih hcs]

theorem splitChar_append_sep (sep : Char) (xs ys : List Char) (h : sep ∉ xs) :
    splitChar sep (xs ++ sep :: ys) = xs :: splitChar sep ys := by
  induction xs with
  | nil => simp [splitChar]
  | cons c cs ih =>
    have hc : c ≠ sep := fun e => h (e ▸ List.mem_cons_self c cs)
    have hcs : sep ∉ cs := fun e => h (List.mem_cons_of_mem _ e)
    simp only [List.cons_append, splitChar, hc, if_false]
    have := ih hcs
    simp only [List.append_eq] at this ⊢
    rw [this]

/-! ## UUID textual form -/

/-- Hyphenated 8-4-4-4-12 grouping of a 32-character digit list. -/
def uuidGroups (h : List Char) : List Char :=
  h.take 8 ++ '-' :: ((h.drop 8).take 4 ++ '-' ::
    ((h.drop 12).take 4 ++ '-' :: ((h.drop 16).take 4 ++ '-' :: h.drop 20)))

/-- Canonical hyphenated character sequence of an identifier: 32 lowercase hex
digits grouped 8-4-4-4-12. -/
def uuidChars (u : Uuid) : List Char :=
  uuidGroups (toHexFixed 32 u.val)

/-- Rendering of `Uuid::to_string`. -/
def uuidToString (u : Uuid) : String := String.mk (uuidChars u)

/-- Parsing of the canonical hyphenated form, as accepted by `Uuid::parse_str`. -/
def parseUuid (s : String) : Option Uuid :=
  match splitChar '-' s.data with
  | [a, b, c, d, e] =>
    if a.length = 8 ∧ b.length = 4 ∧ c.length = 4 ∧ d.length = 4 ∧ e.length = 12 then
      match fromHexAcc 0 (a ++ b ++ c ++ d ++ e) with
      | some n => if h : n < 2 ^ 128 then some ⟨n, h⟩ else none
      | none => none
    else none
  | _ => none

theorem uuidGroups_mem (l : List Char) (c : Char) (h : c ∈ uuidGroups l) :
    c = '-' ∨ c ∈ l := by
  simp only [uuidGroups, List.mem_append, List.mem_cons] at h
  rcases h with h | h | h
  · exact Or.inr (List.take_subset _ _ h)
  · exact Or.inl h
  · rcases h with h | h | h
    · exact Or.inr (List.drop_subset _ _ (List.take_subset _ _ h))
    · exact Or.inl h
    · rcases h with h | h | h
      · exact Or.inr (List.drop_subset _ _ (List.take_subset _ _ h))
      · exact Or.inl h
      · rcases h with h | h | h
        · exact Or.inr (List.drop_subset _ _ (List.take_subset _ _ h))
        · exact Or.inl h
        · exact Or.inr (List.drop_subset _ _ h)

theorem uuidChars_mem (u : Uuid) (c : Char) (h : c ∈ uuidChars u) :
    c = '-' ∨ ∃ d, d < 16 ∧ c = hexDigitChar d := by
  rcases uuidGroups_mem _ c h with h | h
  · exact Or.inl h
  · exact Or.inr (toHexFixed_mem 32 u.val c h)

theorem hexDigitChar_facts (d : Nat) (h : d < 16) :
    hexDigitChar d ≠ '\n' ∧ hexDigitChar d ≠ '-' ∧ hexDigitChar d ≠ '/' ∧
      hexDigitChar d ≠ ':' := by
  interval_cases d <;> exact ⟨by decide, by decide, by decide, by decide⟩

theorem uuidChars_not_newline (u : Uuid) : '\n' ∉ uuidChars u := by
  intro h
  rcases uuidChars_mem u '\n' h with h | ⟨d, hd, he⟩
  · exact absurd h.symm (by decide)
  · exact (hexDigitChar_facts d hd).1 he.symm

theorem uuidChars_not_slash (u : Uuid) : '/' ∉ uuidChars u := by
  intro h
  rcases uuidChars_mem u '/' h with h | ⟨d, hd, he⟩
  · exact absurd h.symm (by decide)
  · exact (hexDigitChar_facts d hd).2.2.1 he.symm

theorem uuidChars_not_colon (u : Uuid) : ':' ∉ uuidChars u := by
  intro h
  rcases uuidChars_mem u ':' h with h | ⟨d, hd, he⟩
  · exact absurd h.symm (by decide)
  · exact (hexDigitChar_facts d hd).2.2.2 he.symm

theorem uuidGroups_ne_nil (l : List Char) : uuidGroups l ≠ [] := by
  intro h
  have hlen := congrArg List.length h
  simp [uuidGroups] at hlen

theorem uuidChars_ne_nil (u : Uuid) : uuidChars u ≠ [] :=
  uuidGroups_ne_nil _

theorem hexDigitChar_ne_hyphen (d : Nat) (h : d < 16) : hexDigitChar d ≠ '-' :=
  (hexDigitChar_facts d h).2.1

theorem toHexFixed_no_hyphen (w n : Nat) : '-' ∉ toHexFixed w n := by
  intro h
  rcases toHexFixed_mem w n '-' h with ⟨d, hd, he⟩
  exact hexDigitChar_ne_hyphen d hd he.symm

theorem splitChar_uuidGroups (l : List Char) (hl : '-' ∉ l) :
    splitChar '-' (uuidGroups l) =
      [l.take 8, (l.drop 8).take 4, (l.drop 12).take 4, (l.drop 16).take 4, l.drop 20] := by
  have nh : ∀ m : List Char, m ⊆ l → '-' ∉ m := fun m hsub hmem => hl (hsub hmem)
  simp only [uuidGroups]
  rw [splitChar_append_sep _ _ _ (nh _ (List.take_subset _ _)),
    splitChar_append_sep _ _ _ (nh _ (fun x hx => List.drop_subset _ _ (List.take_subset _ _ hx))),
    splitChar_append_sep _ _ _ (nh _ (fun x hx => List.drop_subset _ _ (List.take_subset _ _ hx))),
    splitChar_append_sep _ _ _ (nh _ (fun x hx => List.drop_subset _ _ (List.take_subset _ _ hx))),
    splitChar_no_sep _ _ (nh _ (List.drop_subset _ _))]

theorem uuidGroups_join (l : List Char) :
    l.take 8 ++ ((l.drop 8).take 4 ++ ((l.drop 12).take 4 ++
      ((l.drop 16).take 4 ++ l.drop 20))) = l := by
  have e1 : (l.drop 8).take 4 ++ l.drop 12 = l.drop 8 := by
    have := List.take_append_drop 4 (l.drop 8)
    rwa [List.drop_drop] at this
  have e2 : (l.drop 12).take 4 ++ l.drop 16 = l.drop 12 := by
    have := List.take_append_drop 4 (l.drop 12)
    rwa [List.drop_drop] at this
  have e3 : (l.drop 16).take 4 ++ l.drop 20 = l.drop 16 := by
    have := List.take_append_drop 4 (l.drop 16)
    rwa [List.drop_drop] at this
  rw [e3, e2, e1, List.take_append_drop]

theorem parseUuid_uuidToString (u : Uuid) : parseUuid (uuidToString u) = some u := by
  have hlen : (toHexFixed 32 u.val).length = 32 := toHexFixed_length 32 u.val
  simp only [parseUuid, uuidToString, uuidChars]
  rw [splitChar_uuidGroups _ (toHexFixed_no_hyphen 32 u.val)]
  have l1 : ((toHexFixed 32 u.val).take 8).length = 8 := by simp [hlen]
  have l2 : (((toHexFixed 32 u.val).drop 8).take 4).length = 4 := by simp [hlen]
  have l3 : (((toHexFixed 32 u.val).drop 12).take 4).length = 4 := by simp [hlen]
  have l4 : (((toHexFixed 32 u.val).drop 16).take 4).length = 4 := by simp [hlen]
  have l5 : ((toHexFixed 32 u.val).drop 20).length = 12 := by simp [hlen]
  simp only [l1, l2, l3, l4, l5, and_self, if_true]
  have hjoin : (toHexFixed 32 u.val).take 8 ++ (((toHexFixed 32 u.val).drop 8).take 4 ++
      (((toHexFixed 32 u.val).drop 12).take 4 ++ (((toHexFixed 32 u.val).drop 16).take 4 ++
      (toHexFixed 32 u.val).drop 20))) = toHexFixed 32 u.val := uuidGroups_join _
  simp only [List.append_assoc]
  rw [hjoin, fromHexAcc_toHexFixed]
  have hb : u.val % 16 ^ 32 = u.val := by
    apply Nat.mod_eq_of_lt
    have h216 : (16 : Nat) ^ 32 = 2 ^ 128 := by norm_num
    rw [h216]
    exact u.isLt
  simp only [Nat.zero_mul, Nat.zero_add, hb]
  have hvl : u.val < 2 ^ 128 := u.isLt
  simp [hvl]

/-! ## Error taxonomy (`src/error.rs`)
`Result<T>` in the source is `Result<T, Box<dyn Error>>`; the boxed error is
either a `ZtlnError`, a `StoreError`/`std::io::Error` from the physical layer,
or a parse failure bubbled up from `Uuid::parse_str` / `str::parse::<usize>`. -/

/-- Domain errors of `src/error.rs`. -/
inductive ZtlnError
  | Default (msg : String)
  | TopicDoesNotExist (topic : String)
  | TopicAlreadyExists (topic : String)
  | PathAlreadyExists (topic : String) (path : String)
  | PathDoesNotExist (topic : String) (path : String)
  | ParserError (field : String) (msg : Option String)
  | LocationError (location : String)
deriving DecidableEq

/-- The dynamic error type carried by `Result<T, Box<dyn Error>>`. -/
inductive ZErr
  | ztln (e : ZtlnError)
  | store (msg : String)
  | uuidParse
  | intParse
deriving DecidableEq

instance {ε α : Type _} [DecidableEq ε] [DecidableEq α] : DecidableEq (Except ε α) :=
  fun x y =>
    match x, y with
    | .ok a, .ok b => if h : a = b then .isTrue (by simp [h]) else .isFalse (by simp [h])
    | .error a, .error b => if h : a = b then .isTrue (by simp [h]) else .isFalse (by simp [h])
    | .ok _, .error _ => .isFalse (by simp)
    | .error _, .ok _ => .isFalse (by simp)

/-! ## Note metadata (`src/note.rs`) -/

/-- Metadata record of one note, as in `src/note.rs`. -/
structure NoteMetaData where
  note_id : Uuid
  parent_id : Option Uuid
  references : List Uuid
  topic : String
  path : String
deriving DecidableEq

/-- Strip one carriage return from the end of a line, as `str::lines` does
for a line whose `'\n'` terminator was preceded by `'\r'`. -/
def stripTrailingCR (l : List Char) : List Char :=
  match l.getLast? with
  | some c => if c = '\r' then l.dropLast else l
  | none => l

/-- Post-process the parts produced by splitting at `'\n'`: every part but
the last was terminated by a `'\n'` and has an optional preceding `'\r'`
stripped; the last part had no terminator (it is dropped when empty, i.e.
when the string ended with `'\n'` or was empty, and is otherwise kept with
any trailing `'\r'` intact). -/
def rustLinesAux : List (List Char) → List (List Char)
  | [] => []
  | [last] => if last = [] then [] else [last]
  | l :: rest => stripTrailingCR l :: rustLinesAux rest

/-- Rust `str::lines`: split at every `'\n'`, treating a preceding `'\r'`
as part of the terminator, with no trailing empty line for a final
newline. -/
def rustLines (s : String) : List String :=
  (rustLinesAux (splitChar '\n' s.data)).map String.mk

/-- Serialization of `NoteMetaData::serialize`: parent line (empty when no
parent), topic line, path line, then one line per reference. -/
def NoteMetaData.serialize (m : NoteMetaData) : String :=
  (match m.parent_id with
   | some u => uuidToString u
   | none => "") ++ "\n" ++ m.topic ++ "\n" ++ m.path ++
    m.references.foldl (fun b u => b ++ "\n" ++ uuidToString u) ""

/-- Reference-line parsing loop at the end of `parse_meta_file`. -/
def parseUuidLines : List String → Except ZErr (List Uuid)
  | [] => .ok []
  | l :: rest =>
    match parseUuid l with
    | none => .error .uuidParse
    | some u =>
      match parseUuidLines rest with
      | .error e => .error e
      | .ok us => .ok (u :: us)

/-- Deserialization of `NoteMetaData::parse_meta_file`. -/
def NoteMetaData.parse_meta_file (uuid : Uuid) (content : String) :
    Except ZErr NoteMetaData :=
  match rustLines content with
  | [] => .error (.ztln (.ParserError "parent_id" none))
  | pline :: ls1 =>
    match (if pline ≠ "" then
            match parseUuid pline with
            | some u => Except.ok (some u)
            | none => Except.error ZErr.uuidParse
          else Except.ok none : Except ZErr (Option Uuid)) with
    | .error e => .error e
    | .ok parent_id =>
      match ls1 with
      | [] => .error (.ztln (.ParserError "topic" none))
      | topic :: ls2 =>
        if topic = "" then .error (.ztln (.ParserError "topic" (some "field is empty")))
        else
          match ls2 with
          | [] => .error (.ztln (.ParserError "path" none))
          | path :: ls3 =>
            if path = "" then .error (.ztln (.ParserError "path" (some "field is empty")))
            else
              match parseUuidLines ls3 with
              | .error e => .error e
              | .ok references => .ok ⟨uuid, parent_id, references, topic, path⟩

/-! ## Repository store (`src/store.rs`)
The filesystem is modelled explicitly: a file either exists with text content
or exists but cannot be read or parsed as UTF-8 (an `unreadable` state, which
makes `fs::read_to_string` fail); a file absent from the map does not exist.
Directory iteration order is the list order (the source documents no order). -/

/-- State of one on-disk file. -/
inductive FileState
  | unreadable
  | content (s : String)
deriving DecidableEq

/-- The persistent state owned by `Store`: `_CURRENT`, `topics/` directories,
per-topic `_HEAD` files, `topics/<t>/paths/<p>` files, `meta/` files keyed by
identifier, `notes/` blobs, and the keyword `index`. -/
structure StoreFS where
  current : Option FileState
  topicDirs : List String
  headFiles : List (String × FileState)
  pathFiles : List ((String × String) × FileState)
  metaFiles : List (Uuid × FileState)
  noteFiles : List (Uuid × String)
  index : List (String × List Uuid)
deriving DecidableEq

/-- `Store::get_current_topic`: read `_CURRENT` if it exists. -/
def Store.get_current_topic (s : StoreFS) : Except ZErr (Option String) :=
  match s.current with
  | none => .ok none
  | some .unreadable => .error (.store "read _CURRENT")
  | some (.content t) => .ok (some t)

/-- `Store::set_current_topic`: write `_CURRENT` (modelled as always succeeding). -/
def Store.set_current_topic (s : StoreFS) (topic : String) : StoreFS :=
  { s with current := some (.content topic) }

/-- `Store::topic_exists`: does `topics/<topic>` exist. -/
def Store.topic_exists (s : StoreFS) (topic : String) : Bool :=
  s.topicDirs.contains topic

/-- `Store::create_topic`: `fs::create_dir_all` of `topics/<topic>/paths`. -/
def Store.create_topic (s : StoreFS) (topic : String) : StoreFS :=
  { s with topicDirs := if s.topicDirs.contains topic then s.topicDirs
                        else s.topicDirs ++ [topic] }

/-- `Store::get_current_path`: read `topics/<topic>/_HEAD` if it exists. -/
def Store.get_current_path (s : StoreFS) (topic : String) : Except ZErr (Option String) :=
  match alookup topic s.headFiles with
  | none => .ok none
  | some .unreadable => .error (.store "read _HEAD")
  | some (.content p) => .ok (some p)

/-- `Store::set_current_path`: write `topics/<topic>/_HEAD` (always succeeds). -/
def Store.set_current_path (s : StoreFS) (topic path : String) : StoreFS :=
  { s with headFiles := aupdate topic (.content path) s.headFiles }

/-- `Store::path_exists`: does `topics/<topic>/paths/<path>` exist. -/
def Store.path_exists (s : StoreFS) (topic path : String) : Bool :=
  (alookup (topic, path) s.pathFiles).isSome

/-- `Store::get_path`: read the path file and parse its content as a Uuid;
fails when the file is absent, unreadable, or holds no parseable identifier. -/
def Store.get_path (s : StoreFS) (topic path : String) : Except ZErr Uuid :=
  match alookup (topic, path) s.pathFiles with
  | none => .error (.store "path file not found")
  | some .unreadable => .error (.store "read path file")
  | some (.content str) =>
    match parseUuid str with
    | some u => .ok u
    | none => .error .uuidParse

/-- `Store::write_path` (and `Store::reset_path`, which has the same body): create-or-overwrite
the path file with the textual identifier. -/
def Store.write_path (s : StoreFS) (topic path : String) (uuid : Uuid) : StoreFS :=
  { s with pathFiles := aupdate (topic, path) (.content (uuidToString uuid)) s.pathFiles }

/-- `Store::write_note_metadata`: write `meta/<id>` with the serialized record. -/
def Store.write_note_metadata (s : StoreFS) (meta : NoteMetaData) : StoreFS :=
  { s with metaFiles := aupdate meta.note_id (.content meta.serialize) s.metaFiles }

/-- `Store::get_note_metadata`: `Ok(None)` when `meta/<id>` does not exist,
otherwise read the file and parse it. -/
def Store.get_note_metadata (s : StoreFS) (uuid : Uuid) :
    Except ZErr (Option NoteMetaData) :=
  match alookup uuid s.metaFiles with
  | none => .ok none
  | some .unreadable => .error (.store "read meta file")
  | some (.content c) =>
    match NoteMetaData.parse_meta_file uuid c with
    | .error e => .error e
    | .ok m => .ok (some m)

/-- `Store::update_note_content`: copy the draft file into `notes/<id>`; the
draft is modelled by its content string. -/
def Store.update_note_content (s : StoreFS) (filename : String) (note_id : Uuid) :
    StoreFS :=
  { s with noteFiles := aupdate note_id filename s.noteFiles }

/-! ### Journaled writes
`Store::add_note` performs three persistent writes; to reason about their
order each primitive is wrapped to append an event to a journal, and
`add_note` calls the wrappers in exactly the source order (store.rs lines
252-254: `write_path`, then `write_note_metadata`, then
`update_note_content`). -/

/-- One persistent write performed during `Store::add_note`. -/
inductive WriteEvent
  | pathHead (topic path : String) (id : Uuid)
  | noteMeta (id : Uuid) (contents : String)
  | noteContent (id : Uuid) (contents : String)
deriving DecidableEq

/-- Journaling wrapper of `Store::write_path`. -/
def Store.write_path_j (j : StoreFS × List WriteEvent) (topic path : String)
    (uuid : Uuid) : StoreFS × List WriteEvent :=
  (Store.write_path j.1 topic path uuid, j.2 ++ [.pathHead topic path uuid])

/-- Journaling wrapper of `Store::write_note_metadata`. -/
def Store.write_note_metadata_j (j : StoreFS × List WriteEvent)
    (meta : NoteMetaData) : StoreFS × List WriteEvent :=
  (Store.write_note_metadata j.1 meta, j.2 ++ [.noteMeta meta.note_id meta.serialize])

/-- Journaling wrapper of `Store::update_note_content`. -/
def Store.update_note_content_j (j : StoreFS × List WriteEvent)
    (filename : String) (note_id : Uuid) : StoreFS × List WriteEvent :=
  (Store.update_note_content j.1 filename note_id, j.2 ++ [.noteContent note_id filename])

/-- `Store::add_note`: mint an id (passed explicitly as `fresh`), read the old
head as the parent (any failure becomes `None` through `.ok()`), then perform
the three writes in source order. Returns the metadata, the final store and
the journal of writes. -/
def Store.add_note (fresh : Uuid) (s : StoreFS) (topic path filename : String) :
    NoteMetaData × StoreFS × List WriteEvent :=
  let parent_id := (Store.get_path s topic path).toOption
  let metadata : NoteMetaData :=
    { note_id := fresh, parent_id := parent_id, references := [],
      topic := topic, path := path }
  let j1 := Store.write_path_j (s, []) topic path fresh
  let j2 := Store.write_note_metadata_j j1 metadata
  let j3 := Store.update_note_content_j j2 filename fresh
  (metadata, j3)

/-- Replay a journal of raw writes against a store state, to name the
intermediate on-disk states of `Store::add_note`. -/
def Store.replay (s : StoreFS) : List WriteEvent → StoreFS
  | [] => s
  | .pathHead t p u :: rest => Store.replay (Store.write_path s t p u) rest
  | .noteMeta id c :: rest =>
    Store.replay { s with metaFiles := aupdate id (.content c) s.metaFiles } rest
  | .noteContent id c :: rest =>
    Store.replay { s with noteFiles := aupdate id c s.noteFiles } rest

/-- `Store::search_short_uuid`: scan of the `meta/` directory entries; the
first file whose name starts with the 8 given characters is parsed and
loaded. -/
def Store.search_short_uuid_go (s : StoreFS) (short_uuid : String) :
    List (Uuid × FileState) → Except ZErr (Option NoteMetaData)
  | [] => .ok none
  | (id, _) :: rest =>
    if String.mk ((uuidToString id).data.take 8) = short_uuid then
      match parseUuid (uuidToString id) with
      | none => .error .uuidParse
      | some u => Store.get_note_metadata s u
    else Store.search_short_uuid_go s short_uuid rest

/-- `Store::search_short_uuid` over the whole `meta/` directory. -/
def Store.search_short_uuid (s : StoreFS) (short_uuid : String) :
    Except ZErr (Option NoteMetaData) :=
  Store.search_short_uuid_go s short_uuid s.metaFiles

/-- `Store::add_keyword_index`: push onto the keyword's id list (no
deduplication), or insert a fresh singleton list; the whole index is
rewritten. -/
def Store.add_keyword_index (s : StoreFS) (keyword : String)
    (metadata : NoteMetaData) : StoreFS :=
  { s with index :=
      match alookup keyword s.index with
      | some list => aupdate keyword (list ++ [metadata.note_id]) s.index
      | none => s.index ++ [(keyword, [metadata.note_id])] }

/-- Collection loop of `Store::get_meta_from_index`: ids whose metadata is
missing are silently skipped. -/
def Store.collect_metas (s : StoreFS) : List Uuid → Except ZErr (List NoteMetaData)
  | [] => .ok []
  | u :: rest =>
    match Store.get_note_metadata s u with
    | .error e => .error e
    | .ok none => Store.collect_metas s rest
    | .ok (some m) =>
      match Store.collect_metas s rest with
      | .error e => .error e
      | .ok l => .ok (m :: l)

/-- `Store::get_meta_from_index`. -/
def Store.get_meta_from_index (s : StoreFS) (keyword : String) :
    Except ZErr (List NoteMetaData) :=
  match alookup keyword s.index with
  | none => .ok []
  | some list => Store.collect_metas s list

/-- `Store::get_keywords`: every keyword paired with the length of its list. -/
def Store.get_keywords (s : StoreFS) : List (String × Nat) :=
  s.index.map (fun kv => (kv.1, kv.2.length))

/-! ## Location grammar (`src/organization.rs` regexes)
The two regular expressions of `solve_location` are modelled as explicit
parsers over the character list, preserving anchoring and capture groups:
`RELATIVE_LOC  = ^(?:(\w+)/)?(\w+)(?::-(\d+))?$` and
`ABSOLUTE_LOC  = ^([[:xdigit:]]{8})(?:(?:-[[:xdigit:]]{4}){3}-[[:xdigit:]]{12})?$`
(ASCII interpretation of the character classes). -/

/-- A character of the `\w` class (ASCII). -/
def isWordChar (c : Char) : Bool := c.isAlphanum || c = '_'

/-- A character of the `[[:xdigit:]]` class. -/
def isXDigit (c : Char) : Bool :=
  (hexVal c).isSome

/-- Split a character list at the first occurrence of `sep`, if any. -/
def splitOnce (sep : Char) : List Char → Option (List Char × List Char)
  | [] => none
  | c :: cs =>
    if c = sep then some ([], cs)
    else
      match splitOnce sep cs with
      | none => none
      | some (l, r) => some (c :: l, r)

/-- The capture groups of `RELATIVE_LOC`. -/
structure RelCaptures where
  topic : Option String
  path : String
  modifier : Option String
deriving DecidableEq

/-- Match `(\w+)(?::-(\d+))?$` against the part after the optional topic. -/
def matchRelTail (cs : List Char) : Option (String × Option String) :=
  match splitOnce ':' cs with
  | none =>
    if cs ≠ [] ∧ cs.all isWordChar then some (String.mk cs, none) else none
  | some (p, rest) =>
    if p ≠ [] ∧ p.all isWordChar then
      match rest with
      | '-' :: ds =>
        if ds ≠ [] ∧ ds.all Char.isDigit then some (String.mk p, some (String.mk ds))
        else none
      | _ => none
    else none

/-- Match `RELATIVE_LOC` and extract its captures. -/
def matchRelative (s : String) : Option RelCaptures :=
  match splitOnce '/' s.data with
  | none =>
    match matchRelTail s.data with
    | some (p, m) => some ⟨none, p, m⟩
    | none => none
  | some (t, rest) =>
    if t ≠ [] ∧ t.all isWordChar then
      match matchRelTail rest with
      | some (p, m) => some ⟨some (String.mk t), p, m⟩
      | none => none
    else none

/-- Hyphen-separated shape check of the optional full-UUID tail of
`ABSOLUTE_LOC`: five hex groups of sizes 8-4-4-4-12. -/
def matchAbsoluteGroups : List (List Char) → Option String
  | [a, b, c, d, e] =>
    if a.length = 8 ∧ b.length = 4 ∧ c.length = 4 ∧ d.length = 4 ∧ e.length = 12
        ∧ a.all isXDigit ∧ b.all isXDigit ∧ c.all isXDigit ∧ d.all isXDigit
        ∧ e.all isXDigit then
      some (String.mk a)
    else none
  | _ => none

/-- Match `ABSOLUTE_LOC` and extract the `subuuid` capture (first 8 hex
digits); the optional full-UUID tail is checked but not captured. -/
def matchAbsolute (s : String) : Option String :=
  if s.data.length = 8 ∧ s.data.all isXDigit then some (String.mk s.data)
  else matchAbsoluteGroups (splitChar '-' s.data)

/-- Rust `str::parse::<usize>` on a `\d+` capture: the digits' value when it
fits in a usize, and a parse error (`PosOverflow`) when it reaches `2^64`.
Since base-10 accumulation only grows, checking the final value is
equivalent to Rust's per-step checked arithmetic. -/
def rustParseNat (s : String) : Except ZErr Nat :=
  if s.data ≠ [] ∧ s.data.all Char.isDigit then
    if s.data.foldl (fun a c => 10 * a + (c.toNat - 48)) 0 < 2 ^ 64 then
      .ok (s.data.foldl (fun a c => 10 * a + (c.toNat - 48)) 0)
    else .error .intParse
  else .error .intParse

/-! ## Organization domain engine (`src/organization.rs`) -/

/-- The engine state: the lazily-filled current-topic cache plus the store. -/
structure Orga where
  current_topic : Option String
  store : StoreFS
deriving DecidableEq

/-- Outcome of an operation whose Rust body may call `manage_store_error`
(which aborts the process) besides returning `Option`-style data. -/
inductive POr (α : Type _)
  | panic
  | val (a : α)
deriving DecidableEq

/-- Outcome of a `Result`-returning operation: success, typed error, or the
process abort of `manage_store_error`. -/
inductive OpResult (α : Type _)
  | panic
  | err (e : ZErr)
  | ok (a : α)
deriving DecidableEq

/-- `Organization::get_current_topic`: fill the cache from the store on first
access; a store failure aborts via `manage_store_error`; `None` from the
store is returned without populating the cache. -/
def Organization.get_current_topic (o : Orga) : POr (Option String) × Orga :=
  if o.current_topic.isNone then
    match Store.get_current_topic o.store with
    | .error _ => (.panic, o)
    | .ok none => (.val none, o)
    | .ok (some t) => (.val (some t), { o with current_topic := some t })
  else (.val o.current_topic, o)

/-- `Organization::set_current_topic`: typed failure when the topic is
unknown, else write-through and update the cache. -/
def Organization.set_current_topic (o : Orga) (topic : String) : OpResult Unit × Orga :=
  if ¬ Store.topic_exists o.store topic then
    (.err (.ztln (.TopicDoesNotExist topic)), o)
  else
    (.ok (), { current_topic := some topic,
               store := Store.set_current_topic o.store topic })

/-- `Organization::create_topic`: typed failure when the topic exists; else
create it and, when no current topic is set, make it current (the inner
`set_current_topic` result is unwrapped with `manage_store_error`). -/
def Organization.create_topic (o : Orga) (topic : String) : OpResult Unit × Orga :=
  if Store.topic_exists o.store topic then
    (.err (.ztln (.TopicAlreadyExists topic)), o)
  else
    let o1 : Orga := { o with store := Store.create_topic o.store topic }
    match Organization.get_current_topic o1 with
    | (.panic, o2) => (.panic, o2)
    | (.val cur, o2) =>
      if cur.isNone then
        match Organization.set_current_topic o2 topic with
        | (.panic, o3) => (.panic, o3)
        | (.err _, o3) => (.panic, o3)
        | (.ok _, o3) => (.ok (), { o3 with current_topic := some topic })
      else (.ok (), o2)

/-- `Organization::get_current_path` (`&self`: no state change). -/
def Organization.get_current_path (o : Orga) (topic : String) :
    OpResult (Option String) :=
  if Store.topic_exists o.store topic then
    match Store.get_current_path o.store topic with
    | .ok r => .ok r
    | .error e => .err e
  else .err (.ztln (.TopicDoesNotExist topic))

/-- `Organization::unwrap_or_default_topic`. -/
def Organization.unwrap_or_default_topic (o : Orga) (topic : Option String) :
    OpResult String × Orga :=
  match topic with
  | some t => (.ok t, o)
  | none =>
    match Organization.get_current_topic o with
    | (.panic, o') => (.panic, o')
    | (.val none, o') => (.err (.ztln (.Default "No topic given.")), o')
    | (.val (some t), o') => (.ok t, o')

/-- `Organization::set_current_path`. -/
def Organization.set_current_path (o : Orga) (topic : Option String) (path : String) :
    OpResult Unit × Orga :=
  match Organization.unwrap_or_default_topic o topic with
  | (.panic, o') => (.panic, o')
  | (.err e, o') => (.err e, o')
  | (.ok t, o') =>
    if Store.path_exists o'.store t path then
      (.ok (), { o' with store := Store.set_current_path o'.store t path })
    else (.err (.ztln (.PathDoesNotExist t path)), o')

/-- History-walk loop of `solve_relative` (organization.rs lines 189-195):
while the modifier is positive and a note is at hand, load its parent. -/
def Organization.walk_history (s : StoreFS) :
    Nat → Option NoteMetaData → Except ZErr (Option NoteMetaData)
  | 0, m => .ok m
  | _ + 1, none => .ok none
  | n + 1, some meta =>
    match meta.parent_id with
    | some uuid =>
      match Store.get_note_metadata s uuid with
      | .error e => .error e
      | .ok m' => Organization.walk_history s n m'
    | none => Organization.walk_history s n none

/-- `Organization::solve_relative` applied to the captures of
`RELATIVE_LOC`. -/
def Organization.solve_relative (o : Orga) (cap : RelCaptures) :
    OpResult (Option NoteMetaData) × Orga :=
  match (match cap.topic with
         | none =>
           match Organization.get_current_topic o with
           | (.panic, o') => ((.panic : OpResult String), o')
           | (.val none, o') =>
             (.err (.ztln (.Default "No default topic and no topic specified.")), o')
           | (.val (some t), o') => (.ok t, o')
         | some t => ((.ok t : OpResult String), o)) with
  | (.panic, o') => (.panic, o')
  | (.err e, o') => (.err e, o')
  | (.ok topic, o') =>
    match (if cap.path = "HEAD" then
            match Organization.get_current_path o' topic with
            | .panic => (.panic : OpResult String)
            | .err e => .err e
            | .ok r => .ok (r.getD "main")
          else .ok cap.path) with
    | .panic => (.panic, o')
    | .err e => (.err e, o')
    | .ok path =>
      match (match Store.get_path o'.store topic path with
             | .ok uuid => Store.get_note_metadata o'.store uuid
             | .error _ => .ok none) with
      | .error e => (.err e, o')
      | .ok some_metadata =>
        match (match cap.modifier with
               | none => Except.ok 0
               | some ds => rustParseNat ds) with
        | .error e => (.err e, o')
        | .ok modifier =>
          match Organization.walk_history o'.store modifier some_metadata with
          | .error e => (.err e, o')
          | .ok m => (.ok m, o')

/-- `Organization::solve_absolute` applied to the `subuuid` capture. -/
def Organization.solve_absolute (o : Orga) (subuuid : String) :
    OpResult (Option NoteMetaData) × Orga :=
  match Store.search_short_uuid o.store subuuid with
  | .ok r => (.ok r, o)
  | .error e => (.err e, o)

/-- `Organization::solve_location`: try the relative grammar first, then the
absolute grammar, else reject the expression. -/
def Organization.solve_location (o : Orga) (expr : String) :
    OpResult (Option NoteMetaData) × Orga :=
  match matchRelative expr with
  | some cap => Organization.solve_relative o cap
  | none =>
    match matchAbsolute expr with
    | some subuuid => Organization.solve_absolute o subuuid
    | none =>
      (.err (.ztln (.Default ("Invalid location '" ++ expr ++ "'."))), o)

/-- `Organization::create_path`: resolve the source location (default
`"HEAD"`), then write the new path file pointing at the resolved note; no
existence check is made on `new_path`. -/
def Organization.create_path (o : Orga) (new_path : String)
    (location : Option String) : OpResult Unit × Orga :=
  match Organization.solve_location o (location.getD "HEAD") with
  | (.panic, o') => (.panic, o')
  | (.err e, o') => (.err e, o')
  | (.ok none, o') => (.err (.ztln (.Default "location does not exist")), o')
  | (.ok (some metadata), o') =>
    (.ok (), { o' with
               store := Store.write_path o'.store metadata.topic new_path
                 metadata.note_id })

/-! ## Store-level lemmas -/

theorem Store.get_path_write_path (s : StoreFS) (t p : String) (u : Uuid) :
    Store.get_path (Store.write_path s t p u) t p = .ok u := by
  simp [Store.get_path, Store.write_path, alookup_aupdate_self, parseUuid_uuidToString]

theorem Store.add_note_meta (fresh : Uuid) (s : StoreFS) (t p f : String) :
    (Store.add_note fresh s t p f).1 =
      { note_id := fresh, parent_id := (Store.get_path s t p).toOption,
        references := [], topic := t, path := p } := rfl

theorem Store.add_note_state (fresh : Uuid) (s : StoreFS) (t p f : String) :
    (Store.add_note fresh s t p f).2.1 =
      { s with
        pathFiles := aupdate (t, p) (.content (uuidToString fresh)) s.pathFiles,
        metaFiles := aupdate fresh
          (.content (Store.add_note fresh s t p f).1.serialize) s.metaFiles,
        noteFiles := aupdate fresh f s.noteFiles } := rfl

theorem Store.add_note_trace (fresh : Uuid) (s : StoreFS) (t p f : String) :
    (Store.add_note fresh s t p f).2.2 =
      [.pathHead t p fresh, .noteMeta fresh (Store.add_note fresh s t p f).1.serialize,
       .noteContent fresh f] := rfl

theorem Store.add_note_get_path (fresh : Uuid) (s : StoreFS) (t p f : String) :
    Store.get_path (Store.add_note fresh s t p f).2.1 t p = .ok fresh := by
  rw [Store.add_note_state]
  simp [Store.get_path, alookup_aupdate_self, parseUuid_uuidToString]

/-- Iterated insertions through `Store::add_note` on a fixed (topic, path),
each with its minted identifier and draft content. -/
def Store.addNotes (s : StoreFS) (topic path : String) :
    List (Uuid × String) → List NoteMetaData × StoreFS
  | [] => ([], s)
  | (fresh, filename) :: rest =>
    let r := Store.add_note fresh s topic path filename
    let rr := Store.addNotes r.2.1 topic path rest
    (r.1 :: rr.1, rr.2)

theorem Store.addNotes_chain_from (t p : String) (inputs : List (Uuid × String)) :
    ∀ (s : StoreFS) (u : Uuid), Store.get_path s t p = .ok u →
      (∀ m0, (Store.addNotes s t p inputs).1.head? = some m0 →
        m0.parent_id = some u) ∧
      (∀ k mk mk1, (Store.addNotes s t p inputs).1[k]? = some mk →
        (Store.addNotes s t p inputs).1[k + 1]? = some mk1 →
        mk1.parent_id = some mk.note_id) := by
  induction inputs with
  | nil =>
    intro s u hu
    constructor
    · intro m0 h0; simp [Store.addNotes] at h0
    · intro k mk mk1 h1 h2; simp [Store.addNotes] at h1
  | cons hd rest ih =>
    intro s u hu
    obtain ⟨fresh, filename⟩ := hd
    have hmeta : (Store.add_note fresh s t p filename).1.parent_id = some u := by
      rw [Store.add_note_meta]
      simp [hu, Except.toOption]
    have hnext := ih (Store.add_note fresh s t p filename).2.1 fresh
      (Store.add_note_get_path fresh s t p filename)
    constructor
    · intro m0 h0
      simp only [Store.addNotes, List.head?] at h0
      injection h0 with h0
      rw [← h0]
      exact hmeta
    · intro k mk mk1 h1 h2
      simp only [Store.addNotes] at h1 h2
      cases k with
      | zero =>
        simp only [List.getElem?_cons_zero] at h1
        injection h1 with h1
        simp only [List.getElem?_cons_succ] at h2
        have := hnext.1 mk1 (by
          cases hms : (Store.addNotes (Store.add_note fresh s t p filename).2.1
              t p rest).1 with
          | nil => rw [hms] at h2; simp at h2
          | cons a l => rw [hms] at h2; simp at h2; simp [hms, List.head?, h2])
        rw [this, ← h1]
        rw [Store.add_note_meta]
      | succ k =>
        simp only [List.getElem?_cons_succ] at h1 h2
        exact hnext.2 k mk mk1 h1 h2

/-! ## Concrete fixtures used by counterexamples and witnesses -/

/-- A concrete identifier (value 1). -/
def uuidOne : Uuid := ⟨1, by norm_num⟩

/-- A concrete identifier (value 2). -/
def uuidTwo : Uuid := ⟨2, by norm_num⟩

/-- A concrete identifier whose textual form starts with `44a0f45f`. -/
def uuidHex44 : Uuid := ⟨0x44a0f45f * 2 ^ 96, by norm_num⟩

/-- Metadata of the `uuidHex44` note, stored at topic `t`, path `main`. -/
def metaHex44 : NoteMetaData := ⟨uuidHex44, none, [], "t", "main"⟩

/-- A freshly initialized, empty repository. -/
def emptyStore : StoreFS := ⟨none, [], [], [], [], [], []⟩

/-- A repository with one topic `t` and no paths. -/
def storeTopicT : StoreFS := ⟨none, ["t"], [], [], [], [], []⟩

/-- A populated repository: topic `t` is current, its current path `main`
heads at the `uuidHex44` note, and a second path `p2` heads at `uuidTwo`. -/
def storeFull : StoreFS :=
  { current := some (.content "t"), topicDirs := ["t"],
    headFiles := [("t", .content "main")],
    pathFiles := [(("t", "main"), .content (uuidToString uuidHex44)),
                  (("t", "p2"), .content (uuidToString uuidTwo))],
    metaFiles := [(uuidHex44, .content metaHex44.serialize)],
    noteFiles := [], index := [] }

/-- The engine attached to `storeFull` with the topic cache already loaded. -/
def orgaFull : Orga := ⟨some "t", storeFull⟩

/-! ## Claim C10 -/

/-- C10: in `Store::add_note`, every failure of the path-head read — absence,
an unreadable file, or an unparseable head value — is converted into
`parent_id = None`; the note is still created (metadata written, head
advanced) and the operation succeeds instead of propagating the error. -/
theorem C10_head_read_failure_swallowed (s : StoreFS) (t p f : String)
    (e : ZErr) (fresh : Uuid) (h : Store.get_path s t p = .error e) :
    (Store.add_note fresh s t p f).1.parent_id = none ∧
    (Store.add_note fresh s t p f).1.note_id = fresh ∧
    alookup fresh (Store.add_note fresh s t p f).2.1.metaFiles =
      some (.content (Store.add_note fresh s t p f).1.serialize) ∧
    Store.get_path (Store.add_note fresh s t p f).2.1 t p = .ok fresh := by
  refine ⟨?_, rfl, ?_, Store.add_note_get_path fresh s t p f⟩
  · rw [Store.add_note_meta]
    simp [h, Except.toOption]
  · rw [Store.add_note_state]
    exact alookup_aupdate_self _ _ _

/-- C10 witness: a store whose path file holds text that does not parse as an
identifier; the insertion still succeeds with no parent. -/
theorem C10_witness :
    Store.get_path ⟨none, ["t"], [], [(("t", "p"), .content "garbage")], [], [], []⟩
      "t" "p" = .error .uuidParse ∧
    ((Store.add_note uuidOne
        ⟨none, ["t"], [], [(("t", "p"), .content "garbage")], [], [], []⟩
        "t" "p" "draft").1.parent_id = none ∧
     (Store.add_note uuidOne
        ⟨none, ["t"], [], [(("t", "p"), .content "garbage")], [], [], []⟩
        "t" "p" "draft").1.note_id = uuidOne ∧
     alookup uuidOne (Store.add_note uuidOne
        ⟨none, ["t"], [], [(("t", "p"), .content "garbage")], [], [], []⟩
        "t" "p" "draft").2.1.metaFiles =
       some (.content (Store.add_note uuidOne
        ⟨none, ["t"], [], [(("t", "p"), .content "garbage")], [], [], []⟩
        "t" "p" "draft").1.serialize) ∧
     Store.get_path (Store.add_note uuidOne
        ⟨none, ["t"], [], [(("t", "p"), .content "garbage")], [], [], []⟩
        "t" "p" "draft").2.1 "t" "p" = .ok uuidOne) :=
  ⟨rfl, C10_head_read_failure_swallowed _ "t" "p" "draft" .uuidParse uuidOne rfl⟩

/-! ## Claim C5 -/

theorem Store.addNotes_length (t p : String) (inputs : List (Uuid × String)) :
    ∀ s, (Store.addNotes s t p inputs).1.length = inputs.length := by
  induction inputs with
  | nil => intro s; rfl
  | cons hd rest ih =>
    intro s
    obtain ⟨fresh, filename⟩ := hd
    simp [Store.addNotes, ih]

/-- C5: for every sequence of `addNote` calls targeting the same
(topic, path), starting from a store where that path does not exist, the
first inserted note has `parent_id = None` and each later note's `parent_id`
is the previous note's id. -/
theorem C5_parent_chain (s : StoreFS) (t p : String)
    (inputs : List (Uuid × String)) (h : alookup (t, p) s.pathFiles = none) :
    (Store.addNotes s t p inputs).1.length = inputs.length ∧
    (∀ m0, (Store.addNotes s t p inputs).1.head? = some m0 →
      m0.parent_id = none) ∧
    (∀ k mk mk1, (Store.addNotes s t p inputs).1[k]? = some mk →
      (Store.addNotes s t p inputs).1[k + 1]? = some mk1 →
      mk1.parent_id = some mk.note_id) := by
  refine ⟨Store.addNotes_length t p inputs s, ?_, ?_⟩
  · intro m0 h0
    cases inputs with
    | nil => simp [Store.addNotes] at h0
    | cons hd rest =>
      obtain ⟨fresh, filename⟩ := hd
      simp only [Store.addNotes, List.head?] at h0
      injection h0 with h0
      rw [← h0, Store.add_note_meta]
      simp [Store.get_path, h, Except.toOption]
  · intro k mk mk1 h1 h2
    cases inputs with
    | nil => simp [Store.addNotes] at h1
    | cons hd rest =>
      obtain ⟨fresh, filename⟩ := hd
      have hnext := Store.addNotes_chain_from t p rest
        (Store.add_note fresh s t p filename).2.1 fresh
        (Store.add_note_get_path fresh s t p filename)
      simp only [Store.addNotes] at h1 h2
      cases k with
      | zero =>
        simp only [List.getElem?_cons_zero] at h1
        injection h1 with h1
        simp only [List.getElem?_cons_succ] at h2
        have := hnext.1 mk1 (by
          cases hms : (Store.addNotes (Store.add_note fresh s t p filename).2.1
              t p rest).1 with
          | nil => rw [hms] at h2; simp at h2
          | cons a l => rw [hms] at h2; simp at h2; simp [hms, List.head?, h2])
        rw [this, ← h1, Store.add_note_meta]
      | succ k =>
        simp only [List.getElem?_cons_succ] at h1 h2
        exact hnext.2 k mk mk1 h1 h2

/-- C5 witness: two insertions into an empty repository; the recorded parents
are `None` and the first note's id. -/
theorem C5_witness :
    alookup ("t", "main") emptyStore.pathFiles = none ∧
    ((Store.addNotes emptyStore "t" "main" [(uuidOne, "a"), (uuidTwo, "b")]).1.length
        = 2 ∧
     (∀ m0, (Store.addNotes emptyStore "t" "main"
        [(uuidOne, "a"), (uuidTwo, "b")]).1.head? = some m0 →
        m0.parent_id = none) ∧
     (∀ k mk mk1, (Store.addNotes emptyStore "t" "main"
        [(uuidOne, "a"), (uuidTwo, "b")]).1[k]? = some mk →
        (Store.addNotes emptyStore "t" "main"
        [(uuidOne, "a"), (uuidTwo, "b")]).1[k + 1]? = some mk1 →
        mk1.parent_id = some mk.note_id)) :=
  ⟨rfl, C5_parent_chain emptyStore "t" "main" [(uuidOne, "a"), (uuidTwo, "b")] rfl⟩

/-! ## Claim C4 -/

/-- C4 counterexample: the claim that in `Store::add_note` the path-head
write is the last of the three persistent writes is false. At a concrete
store the journal begins, not ends, with the path-head write, and replaying
only that first write leaves the head pointing at a note whose metadata and
content files do not exist. -/
theorem C4_counterexample :
    (Store.add_note uuidTwo storeTopicT "t" "main" "draft").2.2.head? =
      some (.pathHead "t" "main" uuidTwo) ∧
    (Store.add_note uuidTwo storeTopicT "t" "main" "draft").2.2.getLast? =
      some (.noteContent uuidTwo "draft") ∧
    (Store.add_note uuidTwo storeTopicT "t" "main" "draft").2.2.getLast? ≠
      some (.pathHead "t" "main" uuidTwo) ∧
    Store.get_path (Store.replay storeTopicT
        ((Store.add_note uuidTwo storeTopicT "t" "main" "draft").2.2.take 1))
      "t" "main" = .ok uuidTwo ∧
    alookup uuidTwo (Store.replay storeTopicT
        ((Store.add_note uuidTwo storeTopicT "t" "main" "draft").2.2.take 1)).metaFiles
      = none ∧
    alookup uuidTwo (Store.replay storeTopicT
        ((Store.add_note uuidTwo storeTopicT "t" "main" "draft").2.2.take 1)).noteFiles
      = none := by
  refine ⟨rfl, rfl, by decide, ?_, rfl, rfl⟩
  have : (Store.add_note uuidTwo storeTopicT "t" "main" "draft").2.2.take 1 =
      [.pathHead "t" "main" uuidTwo] := rfl
  rw [this]
  exact Store.get_path_write_path _ _ _ _

/-- C4 amended: the path-head write is the first of the three persistent
writes of `Store::add_note` (before the metadata write and the content
write), so the intermediate state after it has the path head pointing at a
note whose metadata and content have not yet been written. -/
theorem C4_amended (fresh : Uuid) (s : StoreFS) (t p f : String)
    (hm : alookup fresh s.metaFiles = none) (hn : alookup fresh s.noteFiles = none) :
    (Store.add_note fresh s t p f).2.2 =
      [.pathHead t p fresh,
       .noteMeta fresh (Store.add_note fresh s t p f).1.serialize,
       .noteContent fresh f] ∧
    Store.get_path (Store.replay s
        ((Store.add_note fresh s t p f).2.2.take 1)) t p = .ok fresh ∧
    alookup fresh (Store.replay s
        ((Store.add_note fresh s t p f).2.2.take 1)).metaFiles = none ∧
    alookup fresh (Store.replay s
        ((Store.add_note fresh s t p f).2.2.take 1)).noteFiles = none := by
  have htr : (Store.add_note fresh s t p f).2.2.take 1 =
      [.pathHead t p fresh] := by
    rw [Store.add_note_trace]
    rfl
  refine ⟨Store.add_note_trace fresh s t p f, ?_, ?_, ?_⟩
  · rw [htr]
    exact Store.get_path_write_path _ _ _ _
  · rw [htr]
    exact hm
  · rw [htr]
    exact hn

/-- C4 amended witness: concrete instantiation of the amended statement. -/
theorem C4_witness :
    (alookup uuidTwo storeTopicT.metaFiles = none ∧
     alookup uuidTwo storeTopicT.noteFiles = none) ∧
    ((Store.add_note uuidTwo storeTopicT "t" "main" "draft").2.2 =
      [.pathHead "t" "main" uuidTwo,
       .noteMeta uuidTwo (Store.add_note uuidTwo storeTopicT "t" "main" "draft").1.serialize,
       .noteContent uuidTwo "draft"] ∧
     Store.get_path (Store.replay storeTopicT
        ((Store.add_note uuidTwo storeTopicT "t" "main" "draft").2.2.take 1))
       "t" "main" = .ok uuidTwo ∧
     alookup uuidTwo (Store.replay storeTopicT
        ((Store.add_note uuidTwo storeTopicT "t" "main" "draft").2.2.take 1)).metaFiles
       = none ∧
     alookup uuidTwo (Store.replay storeTopicT
        ((Store.add_note uuidTwo storeTopicT "t" "main" "draft").2.2.take 1)).noteFiles
       = none) :=
  ⟨⟨rfl, rfl⟩, C4_amended uuidTwo storeTopicT "t" "main" "draft" rfl rfl⟩

/-! ## Claim C3 -/

/-- C3 counterexample: the claim that the abort branch is unreachable and
every Organization operation returns a value or a typed error for every
store outcome is false: when the cache is empty and the store read of
`_CURRENT` fails, `get_current_topic` reaches `manage_store_error` and
aborts the process. -/
theorem C3_counterexample :
    (Organization.get_current_topic
        ⟨none, ⟨some .unreadable, [], [], [], [], [], []⟩⟩).1 = .panic := rfl

/-- C3 amended: `get_current_topic` is total and panic-free whenever the
underlying store read succeeds; it reaches the `manage_store_error` abort
branch exactly when its cache is empty and the store read of the
current-topic marker fails. -/
theorem C3_amended (o : Orga) :
    (Organization.get_current_topic o).1 = .panic ↔
      o.current_topic = none ∧ o.store.current = some .unreadable := by
  obtain ⟨cache, store⟩ := o
  cases cache with
  | some t => simp [Organization.get_current_topic]
  | none =>
    cases hc : store.current with
    | none => simp [Organization.get_current_topic, Store.get_current_topic, hc]
    | some fs =>
      cases fs with
      | unreadable => simp [Organization.get_current_topic, Store.get_current_topic, hc]
      | content t => simp [Organization.get_current_topic, Store.get_current_topic, hc]

/-! ## Claim C2 -/

/-- C2 counterexample: the claim that `create_path` with an existing new-path
name fails with `PathAlreadyExists` leaving the head unchanged is false: at a
concrete store where path `p2` exists with head `uuidTwo`, `create_path`
succeeds and overwrites `p2`'s head with the source head `uuidHex44`. -/
theorem C2_counterexample :
    Store.path_exists orgaFull.store "t" "p2" = true ∧
    Store.get_path orgaFull.store "t" "p2" = .ok uuidTwo ∧
    (Organization.create_path orgaFull "p2" none).1 = .ok () ∧
    (∀ a b : String, (Organization.create_path orgaFull "p2" none).1 ≠
      .err (.ztln (.PathAlreadyExists a b))) ∧
    Store.get_path (Organization.create_path orgaFull "p2" none).2.store "t" "p2" =
      .ok uuidHex44 ∧
    uuidHex44 ≠ uuidTwo := by
  refine ⟨rfl, rfl, rfl, ?_, rfl, by decide⟩
  intro a b h
  rw [show (Organization.create_path orgaFull "p2" none).1 = OpResult.ok () from rfl] at h
  exact OpResult.noConfusion h

/-- C2 amended: `create_path` makes no existence check on the new path name:
whenever the source location resolves to a note it succeeds, writing that
note's id as the new path's head and overwriting any existing path of that
name; `PathAlreadyExists` is never produced. -/
theorem C2_amended (o : Orga) (newPath : String) (loc : Option String)
    (m : NoteMetaData) (o' : Orga)
    (h : Organization.solve_location o (loc.getD "HEAD") = (.ok (some m), o')) :
    Organization.create_path o newPath loc =
      (.ok (), { o' with
                 store := Store.write_path o'.store m.topic newPath m.note_id }) ∧
    Store.get_path (Organization.create_path o newPath loc).2.store m.topic newPath =
      .ok m.note_id := by
  have h1 : Organization.create_path o newPath loc =
      (.ok (), { o' with
                 store := Store.write_path o'.store m.topic newPath m.note_id }) := by
    simp [Organization.create_path, h]
  refine ⟨h1, ?_⟩
  rw [h1]
  exact Store.get_path_write_path _ _ _ _

/-- C2 amended witness: the concrete overwrite scenario of the
counterexample, through the amended theorem. -/
theorem C2_witness :
    Organization.solve_location orgaFull "HEAD" = (.ok (some metaHex44), orgaFull) ∧
    (Organization.create_path orgaFull "p2" none =
      (.ok (), { orgaFull with
                 store := Store.write_path orgaFull.store metaHex44.topic "p2"
                   metaHex44.note_id }) ∧
     Store.get_path (Organization.create_path orgaFull "p2" none).2.store
       metaHex44.topic "p2" = .ok metaHex44.note_id) :=
  ⟨rfl, C2_amended orgaFull "p2" none metaHex44 orgaFull rfl⟩

/-! ## Claim C8 -/

theorem contains_append_one {α : Type _} [DecidableEq α] (l : List α) (a b : α) :
    (l ++ [a]).contains b = (l.contains b || decide (b = a)) := by
  simp [List.elem_eq_mem]

/-- C8: in a repository with no current topic, the first successful
`create_topic` makes that topic current (both in the cache and in the
persisted marker), and a subsequent `create_topic` of a different name
leaves the current topic unchanged. -/
theorem C8_first_topic_current (o : Orga) (t1 t2 : String)
    (hcache : o.current_topic = none) (hfile : o.store.current = none)
    (h1 : Store.topic_exists o.store t1 = false)
    (h2 : Store.topic_exists o.store t2 = false) (hne : t1 ≠ t2) :
    ∃ o1 o2 : Orga,
      Organization.create_topic o t1 = (.ok (), o1) ∧
      o1.current_topic = some t1 ∧
      o1.store.current = some (.content t1) ∧
      Organization.create_topic o1 t2 = (.ok (), o2) ∧
      o2.current_topic = some t1 ∧
      o2.store.current = some (.content t1) := by
  simp only [Store.topic_exists] at h1 h2
  have h1' : t1 ∉ o.store.topicDirs := by simpa [List.elem_eq_mem] using h1
  have hd1 : (Store.create_topic o.store t1).topicDirs = o.store.topicDirs ++ [t1] := by
    simp [Store.create_topic, h1']
  have hx1 : (Store.create_topic o.store t1).topicDirs.contains t1 = true := by
    rw [hd1, contains_append_one]
    simp
  have hx2 : (Store.create_topic o.store t1).topicDirs.contains t2 = false := by
    rw [hd1, contains_append_one, h2]
    have hne' : ¬ t2 = t1 := fun e => hne e.symm
    simp [hne']
  refine ⟨⟨some t1, Store.set_current_topic (Store.create_topic o.store t1) t1⟩,
    ⟨some t1, Store.create_topic
      (Store.set_current_topic (Store.create_topic o.store t1) t1) t2⟩,
    ?_, rfl, rfl, ?_, rfl, rfl⟩
  · simp only [Organization.create_topic, Store.topic_exists, h1, Bool.false_eq_true,
      if_false, Organization.get_current_topic, hcache, Option.isNone_none, if_true,
      Store.get_current_topic]
    rw [show (Store.create_topic o.store t1).current = o.store.current from rfl, hfile]
    simp only [Option.isNone_none, if_true, Organization.set_current_topic,
      Store.topic_exists, hx1]
    simp
  · simp only [Organization.create_topic, Store.topic_exists]
    rw [show (Store.set_current_topic (Store.create_topic o.store t1) t1).topicDirs
        = (Store.create_topic o.store t1).topicDirs from rfl, hx2]
    simp [Organization.get_current_topic]

/-- C8 witness: concrete instantiation starting from the empty repository. -/
theorem C8_witness :
    ((⟨none, emptyStore⟩ : Orga).current_topic = none ∧
     (⟨none, emptyStore⟩ : Orga).store.current = none ∧
     Store.topic_exists (⟨none, emptyStore⟩ : Orga).store "t1" = false ∧
     Store.topic_exists (⟨none, emptyStore⟩ : Orga).store "t2" = false ∧
     "t1" ≠ "t2") ∧
    (∃ o1 o2 : Orga,
      Organization.create_topic ⟨none, emptyStore⟩ "t1" = (.ok (), o1) ∧
      o1.current_topic = some "t1" ∧
      o1.store.current = some (.content "t1") ∧
      Organization.create_topic o1 "t2" = (.ok (), o2) ∧
      o2.current_topic = some "t1" ∧
      o2.store.current = some (.content "t1")) :=
  ⟨⟨rfl, rfl, rfl, rfl, by decide⟩,
   C8_first_topic_current ⟨none, emptyStore⟩ "t1" "t2" rfl rfl rfl rfl (by decide)⟩

/-! ## Claim C9 -/

theorem Store.get_note_metadata_add_keyword (s : StoreFS) (k : String)
    (md : NoteMetaData) (u : Uuid) :
    Store.get_note_metadata (Store.add_keyword_index s k md) u =
      Store.get_note_metadata s u := rfl

theorem Store.add_keyword_index_def (s : StoreFS) (k : String) (md : NoteMetaData) :
    (Store.add_keyword_index s k md).index =
      match alookup k s.index with
      | some list => aupdate k (list ++ [md.note_id]) s.index
      | none => s.index ++ [(k, [md.note_id])] := rfl

/-- C9: adding a note under two different keywords makes it retrievable under
each independently; listed counts equal the length of each keyword's id list;
and duplicate additions of the same note to one keyword are counted
separately (its list grows by one entry per addition, with no
deduplication). -/
theorem C9_keyword_index (s : StoreFS) (m : NoteMetaData) (k1 k2 : String)
    (h12 : k1 ≠ k2)
    (hm : Store.get_note_metadata s m.note_id = .ok (some m))
    (hk1 : alookup k1 s.index = none) (hk2 : alookup k2 s.index = none) :
    Store.get_meta_from_index
      (Store.add_keyword_index (Store.add_keyword_index s k1 m) k2 m) k1 = .ok [m] ∧
    Store.get_meta_from_index
      (Store.add_keyword_index (Store.add_keyword_index s k1 m) k2 m) k2 = .ok [m] ∧
    (k1, 1) ∈ Store.get_keywords
      (Store.add_keyword_index (Store.add_keyword_index s k1 m) k2 m) ∧
    (k2, 1) ∈ Store.get_keywords
      (Store.add_keyword_index (Store.add_keyword_index s k1 m) k2 m) ∧
    (∀ (s' : StoreFS) (k : String) (l : List Uuid),
      alookup k s'.index = some l →
      alookup k (Store.add_keyword_index
          (Store.add_keyword_index s' k m) k m).index =
        some (l ++ [m.note_id, m.note_id]) ∧
      (k, l.length + 2) ∈ Store.get_keywords
        (Store.add_keyword_index (Store.add_keyword_index s' k m) k m)) := by
  have hi1 : (Store.add_keyword_index s k1 m).index =
      s.index ++ [(k1, [m.note_id])] := by
    rw [Store.add_keyword_index_def, hk1]
  have hk2' : alookup k2 (Store.add_keyword_index s k1 m).index = none := by
    rw [hi1, alookup_append, hk2]
    simp [alookup, h12]
  have hi2 : (Store.add_keyword_index (Store.add_keyword_index s k1 m) k2 m).index =
      s.index ++ [(k1, [m.note_id])] ++ [(k2, [m.note_id])] := by
    rw [Store.add_keyword_index_def, hk2', hi1]
  have hl1 : alookup k1 (Store.add_keyword_index
      (Store.add_keyword_index s k1 m) k2 m).index = some [m.note_id] := by
    rw [hi2, alookup_append, alookup_append, hk1]
    simp [alookup]
  have hl2 : alookup k2 (Store.add_keyword_index
      (Store.add_keyword_index s k1 m) k2 m).index = some [m.note_id] := by
    rw [hi2, alookup_append, alookup_append, hk2]
    simp [alookup, h12]
  have hmeta : Store.get_note_metadata
      (Store.add_keyword_index (Store.add_keyword_index s k1 m) k2 m) m.note_id =
      .ok (some m) := by
    rw [Store.get_note_metadata_add_keyword, Store.get_note_metadata_add_keyword]
    exact hm
  refine ⟨?_, ?_, ?_, ?_, ?_⟩
  · simp [Store.get_meta_from_index, hl1, Store.collect_metas, hmeta]
  · simp [Store.get_meta_from_index, hl2, Store.collect_metas, hmeta]
  · simp only [Store.get_keywords, hi2]
    refine List.mem_map.mpr ⟨(k1, [m.note_id]), ?_, rfl⟩
    simp
  · simp only [Store.get_keywords, hi2]
    refine List.mem_map.mpr ⟨(k2, [m.note_id]), ?_, rfl⟩
    simp
  · intro s' k l hl
    have ha1 : (Store.add_keyword_index s' k m).index =
        aupdate k (l ++ [m.note_id]) s'.index := by
      rw [Store.add_keyword_index_def, hl]
    have ha1l : alookup k (Store.add_keyword_index s' k m).index =
        some (l ++ [m.note_id]) := by
      rw [ha1]
      exact alookup_aupdate_self _ _ _
    have ha2 : (Store.add_keyword_index (Store.add_keyword_index s' k m) k m).index =
        aupdate k (l ++ [m.note_id] ++ [m.note_id])
          (Store.add_keyword_index s' k m).index := by
      rw [Store.add_keyword_index_def, ha1l]
    constructor
    · rw [ha2, alookup_aupdate_self]
      simp
    · simp only [Store.get_keywords, ha2]
      have hmem := mem_aupdate k (l ++ [m.note_id] ++ [m.note_id])
        (Store.add_keyword_index s' k m).index
      refine List.mem_map.mpr ⟨(k, l ++ [m.note_id] ++ [m.note_id]), hmem, ?_⟩
      simp

/-- C9 witness: a store holding one note, indexed under two keywords and
twice under a third. -/
theorem C9_witness :
    ("kw1" ≠ "kw2" ∧
     Store.get_note_metadata storeFull metaHex44.note_id = .ok (some metaHex44) ∧
     alookup "kw1" storeFull.index = none ∧
     alookup "kw2" storeFull.index = none) ∧
    (Store.get_meta_from_index
      (Store.add_keyword_index (Store.add_keyword_index storeFull "kw1" metaHex44)
        "kw2" metaHex44) "kw1" = .ok [metaHex44] ∧
     Store.get_meta_from_index
      (Store.add_keyword_index (Store.add_keyword_index storeFull "kw1" metaHex44)
        "kw2" metaHex44) "kw2" = .ok [metaHex44] ∧
     ("kw1", 1) ∈ Store.get_keywords
      (Store.add_keyword_index (Store.add_keyword_index storeFull "kw1" metaHex44)
        "kw2" metaHex44) ∧
     ("kw2", 1) ∈ Store.get_keywords
      (Store.add_keyword_index (Store.add_keyword_index storeFull "kw1" metaHex44)
        "kw2" metaHex44) ∧
     (∀ (s' : StoreFS) (k : String) (l : List Uuid),
      alookup k s'.index = some l →
      alookup k (Store.add_keyword_index
          (Store.add_keyword_index s' k metaHex44) k metaHex44).index =
        some (l ++ [metaHex44.note_id, metaHex44.note_id]) ∧
      (k, l.length + 2) ∈ Store.get_keywords
        (Store.add_keyword_index (Store.add_keyword_index s' k metaHex44) k
          metaHex44))) :=
  ⟨⟨by decide, rfl, rfl, rfl⟩,
   C9_keyword_index storeFull metaHex44 "kw1" "kw2" (by decide) rfl rfl rfl⟩

/-! ## Claim C6 -/

theorem Organization.walk_history_none (s : StoreFS) :
    ∀ n, Organization.walk_history s n none = .ok none
  | 0 => rfl
  | _ + 1 => rfl

theorem Organization.walk_history_chain (s : StoreFS) (chain : List NoteMetaData)
    (L : Nat) (hlen : chain.length = L + 1)
    (hlink : ∀ i mi mi1, chain[i]? = some mi → chain[i + 1]? = some mi1 →
      mi.parent_id = some mi1.note_id ∧
      Store.get_note_metadata s mi1.note_id = .ok (some mi1))
    (hlast : ∀ mL, chain[L]? = some mL → mL.parent_id = none) :
    ∀ n i mi, chain[i]? = some mi →
      Organization.walk_history s n (some mi) = .ok chain[i + n]? := by
  intro n
  induction n with
  | zero =>
    intro i mi hi
    simp only [Organization.walk_history, Nat.add_zero, hi]
  | succ n ih =>
    intro i mi hi
    have hilt : i < chain.length := (List.getElem?_eq_some.mp hi).1
    by_cases hiL : i + 1 < chain.length
    · obtain ⟨mi1, hi1⟩ : ∃ mi1, chain[i + 1]? = some mi1 := by
        rcases h : chain[i + 1]? with _ | m
        · rw [List.getElem?_eq_none_iff] at h
          omega
        · exact ⟨m, rfl⟩
      obtain ⟨hpar, hmeta⟩ := hlink i mi mi1 hi hi1
      have := ih (i + 1) mi1 hi1
      simp only [Organization.walk_history, hpar, hmeta, this]
      congr 1
      congr 1
      omega
    · have hiL' : i = L := by omega
      have hpar : mi.parent_id = none := hlast mi (hiL' ▸ hi)
      simp only [Organization.walk_history, hpar, Organization.walk_history_none]
      have : chain[i + (n + 1)]? = none := List.getElem?_eq_none (by omega)
      rw [this]

/-- C6 amended: for a parent chain of length L reachable from the head of
path p in topic t (the chain lists the head note followed by its ancestors,
ending at a parentless note, so it has L+1 entries), and for every modifier
string that `str::parse::<usize>` accepts (digits whose value N is below
`2^64`), resolving the relative location `t/p:-N` yields the head itself
when N = 0, the N-th ancestor when N ≤ L, and a successful "no note" result
(not an error) when N exceeds L; with no modifier it yields the head. An
overflowing modifier is a parse error instead (see the counterexample). -/
theorem C6_history_walk (o : Orga) (t p ds : String) (N L : Nat)
    (chain : List NoteMetaData) (m0 : NoteMetaData) (hid : Uuid)
    (hp : p ≠ "HEAD") (hds : rustParseNat ds = .ok N)
    (hlen : chain.length = L + 1)
    (h0 : Store.get_path o.store t p = .ok hid)
    (hm0 : Store.get_note_metadata o.store hid = .ok (some m0))
    (hfirst : chain[0]? = some m0)
    (hlink : ∀ i mi mi1, chain[i]? = some mi → chain[i + 1]? = some mi1 →
      mi.parent_id = some mi1.note_id ∧
      Store.get_note_metadata o.store mi1.note_id = .ok (some mi1))
    (hlast : ∀ mL, chain[L]? = some mL → mL.parent_id = none) :
    Organization.solve_relative o ⟨some t, p, some ds⟩ = (.ok chain[N]?, o) ∧
    Organization.solve_relative o ⟨some t, p, none⟩ = (.ok chain[0]?, o) ∧
    (N > L → (Organization.solve_relative o ⟨some t, p, some ds⟩).1 = .ok none) := by
  have hwalk := Organization.walk_history_chain o.store chain L hlen hlink hlast
  have hw0 := hwalk N 0 m0 hfirst
  rw [Nat.zero_add] at hw0
  refine ⟨?_, ?_, ?_⟩
  · simp only [Organization.solve_relative, hp, if_false, h0, hm0, hds, hw0]
  · have hw00 := hwalk 0 0 m0 hfirst
    rw [Nat.zero_add] at hw00
    simp only [Organization.solve_relative, hp, if_false, h0, hm0, hw00]
  · intro hgt
    have hnone : chain[N]? = none := List.getElem?_eq_none (by omega)
    simp only [Organization.solve_relative, hp, if_false, h0, hm0, hds, hw0, hnone]

/-- Root note of the concrete chain fixture (no parent). -/
def metaRoot : NoteMetaData := ⟨uuidOne, none, [], "t", "ch"⟩

/-- Head note of the concrete chain fixture (parent `uuidOne`). -/
def metaChild : NoteMetaData := ⟨uuidTwo, some uuidOne, [], "t", "ch"⟩

/-- A store whose path `t/ch` heads a two-note parent chain. -/
def storeChain : StoreFS :=
  { current := some (.content "t"), topicDirs := ["t"],
    headFiles := [("t", .content "ch")],
    pathFiles := [(("t", "ch"), .content (uuidToString uuidTwo))],
    metaFiles := [(uuidTwo, .content metaChild.serialize),
                  (uuidOne, .content metaRoot.serialize)],
    noteFiles := [], index := [] }

/-- C6 counterexample: the claim quantifies over every N exceeding the chain
length, but a modifier of 2^64 ("18446744073709551616") overflows
`str::parse::<usize>`: on the concrete two-note chain (L = 1) the resolver
propagates the parse error instead of returning the claimed successful
"no note". -/
theorem C6_counterexample :
    rustParseNat "18446744073709551616" = .error .intParse ∧
    Store.get_path storeChain "t" "ch" = .ok uuidTwo ∧
    Store.get_note_metadata storeChain uuidTwo = .ok (some metaChild) ∧
    metaChild.parent_id = some uuidOne ∧
    Store.get_note_metadata storeChain uuidOne = .ok (some metaRoot) ∧
    metaRoot.parent_id = none ∧
    (Organization.solve_relative ⟨some "t", storeChain⟩
      ⟨some "t", "ch", some "18446744073709551616"⟩).1 = .err .intParse ∧
    ∀ r : Option NoteMetaData,
      (OpResult.err ZErr.intParse : OpResult (Option NoteMetaData)) ≠ .ok r := by
  refine ⟨rfl, rfl, rfl, rfl, rfl, rfl, rfl, ?_⟩
  intro r h
  exact OpResult.noConfusion h

/-- C6 witness: on the concrete two-note chain (L = 1), `t/ch:-2` resolves
to "no note" while the unmodified location resolves to the head. -/
theorem C6_witness :
    (rustParseNat "2" = .ok 2 ∧
     Store.get_path (⟨some "t", storeChain⟩ : Orga).store "t" "ch" = .ok uuidTwo ∧
     Store.get_note_metadata (⟨some "t", storeChain⟩ : Orga).store uuidTwo =
       .ok (some metaChild) ∧
     [metaChild, metaRoot][0]? = some metaChild) ∧
    (Organization.solve_relative ⟨some "t", storeChain⟩ ⟨some "t", "ch", some "2"⟩ =
      (.ok [metaChild, metaRoot][2]?, ⟨some "t", storeChain⟩) ∧
     Organization.solve_relative ⟨some "t", storeChain⟩ ⟨some "t", "ch", none⟩ =
      (.ok [metaChild, metaRoot][0]?, ⟨some "t", storeChain⟩) ∧
     (2 > 1 → (Organization.solve_relative ⟨some "t", storeChain⟩
        ⟨some "t", "ch", some "2"⟩).1 = .ok none)) :=
  ⟨⟨rfl, rfl, rfl, rfl⟩,
   C6_history_walk ⟨some "t", storeChain⟩ "t" "ch" "2" 2 1
     [metaChild, metaRoot] metaChild uuidTwo (by decide) rfl rfl rfl rfl rfl
     (by
       intro i mi mi1 h1 h2
       match i with
       | 0 =>
         injection h1 with h1
         injection h2 with h2
         rw [← h1, ← h2]
         exact ⟨rfl, rfl⟩
       | n + 1 => simp at h2)
     (by
       intro mL hL
       injection hL with hL
       rw [← hL]
       rfl)⟩

/-! ## Claim C1 -/

theorem splitOnce_none (sep : Char) (l : List Char) (h : sep ∉ l) :
    splitOnce sep l = none := by
  induction l with
  | nil => rfl
  | cons c cs ih =>
    have hc : c ≠ sep := fun e => h (e ▸ List.mem_cons_self c cs)
    have hcs : sep ∉ cs := fun e => h (List.mem_cons_of_mem _ e)
    simp [splitOnce, hc, ih hcs]

theorem isWordChar_hexDigitChar (d : Nat) (h : d < 16) :
    isWordChar (hexDigitChar d) = true := by
  interval_cases d <;> rfl

theorem isXDigit_hexDigitChar (d : Nat) (h : d < 16) :
    isXDigit (hexDigitChar d) = true := by
  interval_cases d <;> rfl

theorem take_len_append (x y : List Char) (n : Nat) (h : x.length = n) :
    (x ++ y).take n = x := by
  rw [← h, List.take_left]

theorem uuidChars_take8 (u : Uuid) :
    (uuidChars u).take 8 = (toHexFixed 32 u.val).take 8 := by
  simp only [uuidChars, uuidGroups]
  exact take_len_append _ _ 8 (by simp [toHexFixed_length])

theorem hexPrefix_all_word (u : Uuid) :
    ((toHexFixed 32 u.val).take 8).all isWordChar = true := by
  rw [List.all_eq_true]
  intro c hc
  obtain ⟨d, hd, he⟩ := toHexFixed_mem 32 u.val c (List.take_subset _ _ hc)
  rw [he]
  exact isWordChar_hexDigitChar d hd

theorem hexPrefix_length (u : Uuid) :
    ((toHexFixed 32 u.val).take 8).length = 8 := by
  simp [toHexFixed_length]

theorem hyphen_mem_uuidChars (u : Uuid) : '-' ∈ uuidChars u := by
  simp [uuidChars, uuidGroups]

theorem matchRelative_hexPrefix (u : Uuid) :
    matchRelative (String.mk ((uuidToString u).data.take 8)) =
      some ⟨none, String.mk ((uuidToString u).data.take 8), none⟩ := by
  have hdata : (uuidToString u).data.take 8 = (toHexFixed 32 u.val).take 8 :=
    uuidChars_take8 u
  have hsub : ∀ c, c ∈ (toHexFixed 32 u.val).take 8 →
      ∃ d, d < 16 ∧ c = hexDigitChar d :=
    fun c hc => toHexFixed_mem 32 u.val c (List.take_subset _ _ hc)
  have hslash : '/' ∉ (toHexFixed 32 u.val).take 8 := by
    intro hm
    obtain ⟨d, hd, he⟩ := hsub _ hm
    exact (hexDigitChar_facts d hd).2.2.1 he.symm
  have hcolon : ':' ∉ (toHexFixed 32 u.val).take 8 := by
    intro hm
    obtain ⟨d, hd, he⟩ := hsub _ hm
    exact (hexDigitChar_facts d hd).2.2.2 he.symm
  have hne : (toHexFixed 32 u.val).take 8 ≠ [] := by
    intro h
    have := congrArg List.length h
    rw [hexPrefix_length] at this
    simp at this
  simp only [matchRelative, hdata]
  rw [splitOnce_none '/' _ hslash]
  simp only [matchRelTail]
  rw [splitOnce_none ':' _ hcolon]
  simp [hne, hexPrefix_all_word]

theorem matchRelative_fullUuid (u : Uuid) : matchRelative (uuidToString u) = none := by
  have hall : (uuidChars u).all isWordChar = false := by
    rw [List.all_eq_false]
    exact ⟨'-', hyphen_mem_uuidChars u, by simp [isWordChar]⟩
  simp only [matchRelative, uuidToString]
  rw [splitOnce_none '/' _ (uuidChars_not_slash u)]
  simp only [matchRelTail]
  rw [splitOnce_none ':' _ (uuidChars_not_colon u)]
  simp [hall]

theorem matchAbsolute_fullUuid (u : Uuid) :
    matchAbsolute (uuidToString u) =
      some (String.mk ((uuidToString u).data.take 8)) := by
  have hlen32 : (toHexFixed 32 u.val).length = 32 := toHexFixed_length 32 u.val
  have hulen : (uuidChars u).length = 36 := by
    simp [uuidChars, uuidGroups, hlen32]
  have hx : ∀ m : List Char, m ⊆ toHexFixed 32 u.val → m.all isXDigit = true := by
    intro m hm
    rw [List.all_eq_true]
    intro c hc
    obtain ⟨d, hd, he⟩ := toHexFixed_mem 32 u.val c (hm hc)
    rw [he]
    exact isXDigit_hexDigitChar d hd
  rw [matchAbsolute]
  rw [if_neg (by
    rw [show (uuidToString u).data = uuidChars u from rfl, hulen]
    intro hcon
    exact absurd hcon.1 (by norm_num))]
  rw [show (uuidToString u).data = uuidGroups (toHexFixed 32 u.val) from rfl,
    splitChar_uuidGroups _ (toHexFixed_no_hyphen 32 u.val)]
  rw [matchAbsoluteGroups]
  rw [if_pos]
  · rw [show List.take 8 (uuidGroups (toHexFixed 32 u.val)) =
        List.take 8 (toHexFixed 32 u.val) from uuidChars_take8 u]
  · refine ⟨by simp [hlen32], by simp [hlen32], by simp [hlen32], by simp [hlen32],
      by simp [hlen32], ?_, ?_, ?_, ?_, ?_⟩
    · exact hx _ (List.take_subset _ _)
    · exact hx _ (fun x hc => List.drop_subset _ _ (List.take_subset _ _ hc))
    · exact hx _ (fun x hc => List.drop_subset _ _ (List.take_subset _ _ hc))
    · exact hx _ (fun x hc => List.drop_subset _ _ (List.take_subset _ _ hc))
    · exact hx _ (List.drop_subset _ _)

theorem hexPrefix_ne_HEAD (u : Uuid) :
    String.mk ((uuidToString u).data.take 8) ≠ "HEAD" := by
  intro e
  have hd := congrArg (fun s => s.data.length) e
  simp only at hd
  rw [show (uuidToString u).data.take 8 = (toHexFixed 32 u.val).take 8 from
    uuidChars_take8 u] at hd
  rw [hexPrefix_length] at hd
  exact absurd hd (by decide)

theorem Organization.solve_location_eq_relative (o : Orga) (expr : String)
    (cap : RelCaptures) (h1 : matchRelative expr = some cap) :
    Organization.solve_location o expr = Organization.solve_relative o cap := by
  unfold Organization.solve_location
  rw [h1]

theorem Organization.solve_location_eq_absolute (o : Orga) (expr sub : String)
    (h1 : matchRelative expr = none) (h2 : matchAbsolute expr = some sub) :
    Organization.solve_location o expr = Organization.solve_absolute o sub := by
  unfold Organization.solve_location
  rw [h1, h2]

theorem Organization.get_current_topic_cached (o : Orga) (t : String)
    (h : o.current_topic = some t) :
    Organization.get_current_topic o = (.val (some t), o) := by
  unfold Organization.get_current_topic
  rw [h]
  rfl

theorem Organization.solve_relative_lookup_none (o : Orga) (t p : String)
    (hcache : o.current_topic = some t) (hp : p ≠ "HEAD")
    (hpath : alookup (t, p) o.store.pathFiles = none) :
    Organization.solve_relative o ⟨none, p, none⟩ = (.ok none, o) := by
  have e1 := Organization.get_current_topic_cached o t hcache
  have e2 : Store.get_path o.store t p = .error (.store "path file not found") := by
    unfold Store.get_path
    rw [hpath]
  unfold Organization.solve_relative
  rw [e1]
  simp only [show (⟨none, p, none⟩ : RelCaptures).path = p from rfl,
    show (⟨none, p, none⟩ : RelCaptures).topic = none from rfl,
    show (⟨none, p, none⟩ : RelCaptures).modifier = none from rfl]
  rw [if_neg hp]
  show (match (match Store.get_path o.store t p with
        | Except.ok uuid => Store.get_note_metadata o.store uuid
        | Except.error _ => Except.ok none) with
      | Except.error e => ((OpResult.err e : OpResult (Option NoteMetaData)), o)
      | Except.ok some_metadata =>
        match Organization.walk_history o.store 0 some_metadata with
        | Except.error e => (OpResult.err e, o)
        | Except.ok m => (OpResult.ok m, o)) = (OpResult.ok none, o)
  rw [e2]
  rfl

theorem Store.search_go_head_match (s : StoreFS) (short : String) (U : Uuid)
    (c : FileState) (rest : List (Uuid × FileState))
    (h : String.mk ((uuidToString U).data.take 8) = short) :
    Store.search_short_uuid_go s short ((U, c) :: rest) =
      match parseUuid (uuidToString U) with
      | none => .error .uuidParse
      | some u => Store.get_note_metadata s u := by
  simp only [Store.search_short_uuid_go]
  rw [if_pos h]

/-- C1 amended: an expression of exactly the 8 leading hex characters of a
stored identifier matches the RELATIVE grammar (as a bare path name), so
`solve_location` resolves it relatively — returning "no note" when no path of
that name exists in the current topic — and never reaches the absolute scan;
the absolute form is attempted only when the relative grammar fails to match,
as for the full hyphenated identifier, for which the short-id scan returns
the stored note's metadata. -/
theorem C1_amended (o : Orga) (t : String) (U : Uuid) (c : String)
    (m : NoteMetaData) (rest : List (Uuid × FileState))
    (hcache : o.current_topic = some t)
    (hpath : alookup (t, String.mk ((uuidToString U).data.take 8))
      o.store.pathFiles = none)
    (hmeta : o.store.metaFiles = (U, .content c) :: rest)
    (hparse : NoteMetaData.parse_meta_file U c = .ok m) :
    matchRelative (String.mk ((uuidToString U).data.take 8)) =
      some ⟨none, String.mk ((uuidToString U).data.take 8), none⟩ ∧
    Organization.solve_location o (String.mk ((uuidToString U).data.take 8)) =
      (.ok none, o) ∧
    matchRelative (uuidToString U) = none ∧
    matchAbsolute (uuidToString U) =
      some (String.mk ((uuidToString U).data.take 8)) ∧
    Organization.solve_location o (uuidToString U) = (.ok (some m), o) := by
  have hs : Store.search_short_uuid o.store
      (String.mk ((uuidToString U).data.take 8)) = .ok (some m) := by
    unfold Store.search_short_uuid
    rw [hmeta]
    rw [Store.search_go_head_match o.store _ U _ rest rfl]
    rw [parseUuid_uuidToString]
    show Store.get_note_metadata o.store U = .ok (some m)
    unfold Store.get_note_metadata
    rw [hmeta]
    simp [alookup, hparse]
  refine ⟨matchRelative_hexPrefix U, ?_, matchRelative_fullUuid U,
    matchAbsolute_fullUuid U, ?_⟩
  · rw [Organization.solve_location_eq_relative o _ _ (matchRelative_hexPrefix U)]
    exact Organization.solve_relative_lookup_none o t _ hcache
      (hexPrefix_ne_HEAD U) hpath
  · rw [Organization.solve_location_eq_absolute o _ _ (matchRelative_fullUuid U)
      (matchAbsolute_fullUuid U)]
    unfold Organization.solve_absolute
    rw [hs]

/-- C1 counterexample: the claim that `solve_location` of exactly the 8
leading hex characters of a stored note's identifier returns that note's
metadata is false. `orgaFull` stores the note `metaHex44` whose identifier
begins with `44a0f45f` (and the short-id scan alone would find it), yet
`solve_location "44a0f45f"` resolves through the relative grammar and
returns a successful "no note", not the note's metadata. -/
theorem C1_counterexample :
    (uuidToString uuidHex44).data.take 8 = "44a0f45f".data ∧
    alookup uuidHex44 orgaFull.store.metaFiles =
      some (.content metaHex44.serialize) ∧
    Store.get_note_metadata orgaFull.store uuidHex44 = .ok (some metaHex44) ∧
    Store.search_short_uuid orgaFull.store "44a0f45f" = .ok (some metaHex44) ∧
    (Organization.solve_location orgaFull "44a0f45f").1 = .ok none ∧
    (OpResult.ok (none : Option NoteMetaData)) ≠ .ok (some metaHex44) := by
  refine ⟨rfl, rfl, rfl, rfl, rfl, ?_⟩
  intro h
  injection h with h
  exact Option.noConfusion h

/-- C1 witness: the amended theorem instantiated at the concrete store
`orgaFull` and identifier `uuidHex44`. -/
theorem C1_witness :
    (orgaFull.current_topic = some "t" ∧
     alookup ("t", String.mk ((uuidToString uuidHex44).data.take 8))
       orgaFull.store.pathFiles = none ∧
     orgaFull.store.metaFiles = (uuidHex44, .content metaHex44.serialize) :: [] ∧
     NoteMetaData.parse_meta_file uuidHex44 metaHex44.serialize = .ok metaHex44) ∧
    (matchRelative (String.mk ((uuidToString uuidHex44).data.take 8)) =
      some ⟨none, String.mk ((uuidToString uuidHex44).data.take 8), none⟩ ∧
     Organization.solve_location orgaFull
       (String.mk ((uuidToString uuidHex44).data.take 8)) = (.ok none, orgaFull) ∧
     matchRelative (uuidToString uuidHex44) = none ∧
     matchAbsolute (uuidToString uuidHex44) =
       some (String.mk ((uuidToString uuidHex44).data.take 8)) ∧
     Organization.solve_location orgaFull (uuidToString uuidHex44) =
       (.ok (some metaHex44), orgaFull)) :=
  ⟨⟨rfl, rfl, rfl, rfl⟩,
   C1_amended orgaFull "t" uuidHex44 metaHex44.serialize metaHex44 []
     rfl rfl rfl rfl⟩

/-! ## Claim C7 -/

/-- Characters of the parent line of a serialized record. -/
def parentChars : Option Uuid → List Char
  | some u => uuidChars u
  | none => []

/-- Characters appended for the reference lines of a serialized record. -/
def refsChars : List Uuid → List Char
  | [] => []
  | u :: rest => '\n' :: uuidChars u ++ refsChars rest

theorem serialize_fold_data (rs : List Uuid) :
    ∀ b : String, (rs.foldl (fun b u => b ++ "\n" ++ uuidToString u) b).data =
      b.data ++ refsChars rs := by
  induction rs with
  | nil => intro b; simp [refsChars]
  | cons u rest ih =>
    intro b
    rw [List.foldl_cons, ih, refsChars]
    simp only [String.data_append]
    rw [show (uuidToString u).data = uuidChars u from rfl]
    simp [List.append_assoc]

theorem serialize_data (m : NoteMetaData) :
    m.serialize.data = parentChars m.parent_id ++ '\n' :: m.topic.data ++
      '\n' :: m.path.data ++ refsChars m.references := by
  unfold NoteMetaData.serialize
  simp only [String.data_append, serialize_fold_data]
  cases hp : m.parent_id with
  | none => simp [parentChars, List.append_assoc]
  | some u =>
    rw [show (uuidToString u).data = uuidChars u from rfl]
    simp [parentChars, List.append_assoc]

theorem parentChars_not_newline (p : Option Uuid) : '\n' ∉ parentChars p := by
  cases p with
  | none => simp [parentChars]
  | some u => exact uuidChars_not_newline u

theorem splitChar_with_refs (x : List Char) (rs : List Uuid) (hx : '\n' ∉ x) :
    splitChar '\n' (x ++ refsChars rs) = x :: rs.map uuidChars := by
  induction rs generalizing x with
  | nil =>
    rw [refsChars, List.append_nil, splitChar_no_sep '\n' x hx, List.map_nil]
  | cons u rest ih =>
    rw [refsChars, show x ++ ('\n' :: uuidChars u ++ refsChars rest) =
      x ++ '\n' :: (uuidChars u ++ refsChars rest) from by simp,
      splitChar_append_sep '\n' x _ hx, ih (uuidChars u) (uuidChars_not_newline u),
      List.map_cons]

theorem splitChar_serialize (m : NoteMetaData)
    (htn : '\n' ∉ m.topic.data) (hpn : '\n' ∉ m.path.data) :
    splitChar '\n' m.serialize.data =
      parentChars m.parent_id :: m.topic.data :: m.path.data ::
        m.references.map uuidChars := by
  rw [serialize_data]
  simp only [List.cons_append, List.append_assoc]
  rw [splitChar_append_sep '\n' _ _ (parentChars_not_newline m.parent_id)]
  rw [splitChar_append_sep '\n' _ _ htn]
  rw [splitChar_with_refs _ _ hpn]

theorem getLast?_mem_self {α : Type _} (l : List α) (a : α)
    (h : l.getLast? = some a) : a ∈ l := by
  induction l with
  | nil => simp at h
  | cons x xs ih =>
    cases xs with
    | nil =>
      rw [List.getLast?_singleton] at h
      injection h with h
      rw [← h]
      exact List.mem_cons_self x []
    | cons y ys =>
      rw [List.getLast?_cons_cons] at h
      exact List.mem_cons_of_mem x (ih h)

theorem hexDigitChar_ne_cr (d : Nat) (h : d < 16) : hexDigitChar d ≠ '\r' := by
  interval_cases d <;> decide

theorem stripTrailingCR_of_ne (l : List Char) (h : l.getLast? ≠ some '\r') :
    stripTrailingCR l = l := by
  unfold stripTrailingCR
  cases hl : l.getLast? with
  | none => rfl
  | some c =>
    show (if c = '\r' then l.dropLast else l) = l
    rw [if_neg]
    intro e
    rw [e] at hl
    exact h hl

theorem stripTrailingCR_uuidChars (u : Uuid) :
    stripTrailingCR (uuidChars u) = uuidChars u := by
  apply stripTrailingCR_of_ne
  intro h
  rcases uuidChars_mem u '\r' (getLast?_mem_self _ _ h) with h' | ⟨d, hd, he⟩
  · exact absurd h'.symm (by decide)
  · exact hexDigitChar_ne_cr d hd he.symm

theorem stripTrailingCR_parentChars (p : Option Uuid) :
    stripTrailingCR (parentChars p) = parentChars p := by
  cases p with
  | none => rfl
  | some u => exact stripTrailingCR_uuidChars u

theorem rustLinesAux_final (rs : List Uuid) :
    ∀ x : List Char, x ≠ [] → stripTrailingCR x = x →
      rustLinesAux (x :: rs.map uuidChars) = x :: rs.map uuidChars := by
  induction rs with
  | nil =>
    intro x hx _
    simp [rustLinesAux, hx]
  | cons u rest ih =>
    intro x hx hxcr
    rw [List.map_cons]
    rw [show rustLinesAux (x :: uuidChars u :: rest.map uuidChars) =
      stripTrailingCR x :: rustLinesAux (uuidChars u :: rest.map uuidChars)
      from rfl]
    rw [hxcr, ih (uuidChars u) (uuidChars_ne_nil u) (stripTrailingCR_uuidChars u)]

theorem rustLines_serialize (m : NoteMetaData)
    (hpa : m.path.data ≠ [])
    (htn : '\n' ∉ m.topic.data) (hpn : '\n' ∉ m.path.data)
    (htr : m.topic.data.getLast? ≠ some '\r')
    (hpr : m.path.data.getLast? ≠ some '\r') :
    rustLines m.serialize =
      String.mk (parentChars m.parent_id) :: m.topic :: m.path ::
        m.references.map uuidToString := by
  unfold rustLines
  rw [splitChar_serialize m htn hpn]
  rw [show rustLinesAux (parentChars m.parent_id :: m.topic.data :: m.path.data ::
        m.references.map uuidChars) =
      stripTrailingCR (parentChars m.parent_id) ::
        rustLinesAux (m.topic.data :: m.path.data :: m.references.map uuidChars)
      from rfl]
  rw [show rustLinesAux (m.topic.data :: m.path.data :: m.references.map uuidChars) =
      stripTrailingCR m.topic.data ::
        rustLinesAux (m.path.data :: m.references.map uuidChars) from rfl]
  rw [stripTrailingCR_parentChars, stripTrailingCR_of_ne _ htr,
    rustLinesAux_final _ _ hpa (stripTrailingCR_of_ne _ hpr)]
  rw [List.map_cons, List.map_cons, List.map_cons]
  rw [show String.mk m.topic.data = m.topic from rfl,
    show String.mk m.path.data = m.path from rfl]
  congr 1
  congr 1
  congr 1
  rw [List.map_map]
  rfl

theorem parseUuidLines_map (rs : List Uuid) :
    parseUuidLines (rs.map uuidToString) = .ok rs := by
  induction rs with
  | nil => rfl
  | cons u rest ih =>
    rw [List.map_cons]
    unfold parseUuidLines
    rw [parseUuid_uuidToString, ih]

theorem data_ne_nil_of_ne_empty (s : String) (h : s ≠ "") : s.data ≠ [] := by
  intro hd
  apply h
  cases s with
  | mk l =>
    cases hd
    rfl

theorem uuidToString_ne_empty (u : Uuid) : uuidToString u ≠ "" := by
  intro h
  exact uuidChars_ne_nil u (congrArg String.data h)

/-- C7 amended: for every metadata record whose topic and path are non-empty,
contain no newline character and do not end in a carriage return, parsing the
serialized form reproduces the record exactly; and with an empty reference
list the serialized form has exactly the parent, topic and path lines and
nothing more. -/
theorem C7_roundtrip (m : NoteMetaData)
    (ht : m.topic ≠ "") (hp : m.path ≠ "")
    (htn : '\n' ∉ m.topic.data) (hpn : '\n' ∉ m.path.data)
    (htr : m.topic.data.getLast? ≠ some '\r')
    (hpr : m.path.data.getLast? ≠ some '\r') :
    NoteMetaData.parse_meta_file m.note_id m.serialize = .ok m ∧
    (m.references = [] →
      rustLines m.serialize =
        [(match m.parent_id with
          | some u => uuidToString u
          | none => ""), m.topic, m.path]) := by
  have hl := rustLines_serialize m (data_ne_nil_of_ne_empty _ hp) htn hpn htr hpr
  constructor
  · unfold NoteMetaData.parse_meta_file
    rw [hl]
    cases hpid : m.parent_id with
    | none =>
      rw [show String.mk (parentChars none) = "" from rfl]
      simp only [ne_eq, not_true_eq_false, if_false, reduceIte, ht, hp,
        parseUuidLines_map]
      cases m with
      | mk a b c d e =>
        simp only at hpid ⊢
        rw [hpid]
    | some u =>
      rw [show String.mk (parentChars (some u)) = uuidToString u from rfl]
      simp only [ne_eq, uuidToString_ne_empty u, not_false_eq_true, if_true,
        reduceIte, parseUuid_uuidToString, ht, hp, if_false, parseUuidLines_map]
      cases m with
      | mk a b c d e =>
        simp only at hpid ⊢
        rw [hpid]
  · intro hrefs
    rw [hl, hrefs]
    cases hpid : m.parent_id with
    | none =>
      rw [show String.mk (parentChars none) = "" from rfl]
      rfl
    | some u =>
      rw [show String.mk (parentChars (some u)) = uuidToString u from rfl]
      rfl

/-- A record whose topic name contains a newline: legal on disk (Linux file
names admit newlines) but not round-trippable through the line-oriented
metadata format. -/
def metaNewline : NoteMetaData := ⟨uuidOne, none, [], "a\nb", "main"⟩

/-- A record whose topic ends in a carriage return: `str::lines` strips the
`\r` before the following line break, so the record cannot round-trip
either. -/
def metaCR : NoteMetaData := ⟨uuidOne, none, [], "a\r", "main"⟩

/-- C7 counterexample: the claim quantifies over every record with non-empty
topic and path, but line-terminator characters inside a name break the round
trip. A topic containing a newline splits into topic and path with the real
path line parsed as a reference identifier, so parsing fails; a topic ending
in a carriage return loses it to the `\r\n` terminator, so parsing succeeds
with a different topic. -/
theorem C7_counterexample :
    (metaNewline.topic ≠ "" ∧ metaNewline.path ≠ "" ∧
     NoteMetaData.parse_meta_file metaNewline.note_id metaNewline.serialize =
       .error .uuidParse ∧
     NoteMetaData.parse_meta_file metaNewline.note_id metaNewline.serialize ≠
       .ok metaNewline) ∧
    (metaCR.topic ≠ "" ∧ metaCR.path ≠ "" ∧
     NoteMetaData.parse_meta_file metaCR.note_id metaCR.serialize =
       .ok ⟨uuidOne, none, [], "a", "main"⟩ ∧
     NoteMetaData.parse_meta_file metaCR.note_id metaCR.serialize ≠
       .ok metaCR) := by
  refine ⟨⟨by decide, by decide, rfl, ?_⟩, by decide, by decide, rfl, ?_⟩
  · intro h
    rw [show NoteMetaData.parse_meta_file metaNewline.note_id metaNewline.serialize =
      .error .uuidParse from rfl] at h
    exact Except.noConfusion h
  · intro h
    rw [show NoteMetaData.parse_meta_file metaCR.note_id metaCR.serialize =
      .ok ⟨uuidOne, none, [], "a", "main"⟩ from rfl] at h
    injection h with h
    have := congrArg NoteMetaData.topic h
    exact absurd this (by decide)

/-- A record with a parent and two references, used to witness the round
trip. -/
def metaRich : NoteMetaData := ⟨uuidTwo, some uuidOne, [uuidOne, uuidTwo], "t1", "main"⟩

/-- C7 witness: the amended round trip instantiated at a record with a
parent id and two references, and at an empty-reference record for the
no-extra-lines half. -/
theorem C7_witness :
    (metaRich.topic ≠ "" ∧ metaRich.path ≠ "" ∧
     '\n' ∉ metaRich.topic.data ∧ '\n' ∉ metaRich.path.data ∧
     metaRich.topic.data.getLast? ≠ some '\r' ∧
     metaRich.path.data.getLast? ≠ some '\r') ∧
    (NoteMetaData.parse_meta_file metaRich.note_id metaRich.serialize =
      .ok metaRich ∧
     (metaRich.references = [] →
      rustLines metaRich.serialize =
        [(match metaRich.parent_id with
          | some u => uuidToString u
          | none => ""), metaRich.topic, metaRich.path])) ∧
    (NoteMetaData.parse_meta_file metaHex44.note_id metaHex44.serialize =
      .ok metaHex44 ∧
     (metaHex44.references = [] →
      rustLines metaHex44.serialize =
        [(match metaHex44.parent_id with
          | some u => uuidToString u
          | none => ""), metaHex44.topic, metaHex44.path])) :=
  ⟨⟨by decide, by decide, by decide, by decide, by decide, by decide⟩,
   C7_roundtrip metaRich (by decide) (by decide) (by decide) (by decide)
     (by decide) (by decide),
   C7_roundtrip metaHex44 (by decide) (by decide) (by decide) (by decide)
     (by decide) (by decide)⟩
